import Mathlib

/-!
Shallow embedding of `src/ajax/libs/loadjs/2.1.2/loadjs.umd.js`.

The library is a callback-driven script/stylesheet loader.  Its state is
three process-wide plain-object maps (`bundleIdCache`, `bundleResultCache`,
`bundleCallbackQueue`) plus, implicitly, the closure state of the handlers
created inside `subscribe` (lines 36-41: `depsNotFound`, `numWaiting`) and
inside `loadFiles` (lines 146-159: `pathsNotFound`, `numWaiting`).  We
defunctionalize those closures into explicit tables indexed by freshly
allocated numeric ids (`waiters`, `loads`), and we record every observable
callback invocation in an append-only event log.  Plain-object property
lookups are modelled as map lookups; the DOM side of `loadFile` (element
creation, the `async` attribute, the IE stylesheet probe) is outside the
embedding, so a file's resolution arrives as an externally chosen event
`(path, result, defaultPrevented)` with `result` one of `l`oad / `e`rror /
`b`eforeload, exactly the triple the source's `fn` callbacks receive.
Counters are modelled as `Int` because the JavaScript counters can go
negative (and `!numWaiting` is false there).
-/

namespace LoadJS

/-- First letter of the DOM event type delivered to a file's handler
(line 111: `ev.type[0]`): `success` = 'l' (load), `error` = 'e',
`blocked` = 'b' (beforeload). -/
inductive FileResult
  | success
  | error
  | blocked
deriving DecidableEq, Repr

/-- Which function actually ran when a user-facing callback slot was
invoked: the caller-supplied callback, or the `devnull` no-op default
substituted by `args.fail || devnull` / `args.success || devnull`
(lines 15, 194-195). -/
inductive CbTarget
  | user
  | devnull
deriving DecidableEq, Repr

/-- Observable happenings, in chronological order. -/
inductive Event
  | dispatched (lid : Nat) (path : String)
  | waiterCalled (wid : Nat) (depsNotFound : List String)
  | successCb (lid : Nat) (target : CbTarget)
  | failCb (lid : Nat) (pathsNotFound : List String) (target : CbTarget)
  | published (bundleId : String) (pathsNotFound : List String)
deriving DecidableEq, Repr

/-- Closure state of one `subscribe` call (lines 30-41). -/
structure Waiter where
  depsNotFound : List String
  numWaiting : Int
deriving DecidableEq, Repr

/-- Closure state of one `loadFiles` call together with the enclosing
`loadjs` call's bundle id and callback presence (lines 143-159, 173-199). -/
structure LoadOp where
  bundleId : Option String
  hasSuccess : Bool
  hasFail : Bool
  numWaiting : Int
  pathsNotFound : List String
deriving DecidableEq, Repr

/-- Whole-program state: the three global maps of lines 15-18, the
defunctionalized closure tables, and the event log. -/
@[ext] structure State where
  bundleIdCache : String → Bool
  bundleResultCache : String → Option (List String)
  bundleCallbackQueue : String → List Nat
  waiters : Nat → Option Waiter
  nextWaiterId : Nat
  loads : Nat → Option LoadOp
  nextLoadId : Nat
  events : List Event

def initState : State where
  bundleIdCache := fun _ => false
  bundleResultCache := fun _ => none
  bundleCallbackQueue := fun _ => []
  waiters := fun _ => none
  nextWaiterId := 0
  loads := fun _ => none
  nextLoadId := 0
  events := []

def logEvent (st : State) (e : Event) : State :=
  { st with events := st.events ++ [e] }

def setCache (st : State) (b : String) (r : List String) : State :=
  { st with bundleResultCache := fun c => if c = b then some r else st.bundleResultCache c }

def setQueue (st : State) (b : String) (q : List Nat) : State :=
  { st with bundleCallbackQueue := fun c => if c = b then q else st.bundleCallbackQueue c }

def pushQueue (st : State) (b : String) (wid : Nat) : State :=
  setQueue st b (st.bundleCallbackQueue b ++ [wid])

def setWaiter (st : State) (wid : Nat) (w : Waiter) : State :=
  { st with waiters := fun i => if i = wid then some w else st.waiters i }

def setLoad (st : State) (lid : Nat) (op : LoadOp) : State :=
  { st with loads := fun i => if i = lid then some op else st.loads i }

/-- The per-bundle settlement handler `fn` created inside `subscribe`
(lines 36-41): if the published `pathsNotFound` list is non-empty the
bundle id is appended to the waiter's `depsNotFound`; then `numWaiting`
is decremented, and when it reaches zero the waiter's callback fires
with `depsNotFound`. -/
def runWaiterFn (st : State) (wid : Nat) (bundleId : String) (pathsNotFound : List String) :
    State :=
  match st.waiters wid with
  | none => st
  | some w =>
    let depsNotFound :=
      if pathsNotFound.length ≠ 0 then w.depsNotFound ++ [bundleId] else w.depsNotFound
    let numWaiting := w.numWaiting - 1
    let st1 := setWaiter st wid ⟨depsNotFound, numWaiting⟩
    if numWaiting = 0 then logEvent st1 (.waiterCalled wid depsNotFound) else st1

/-- The `while (i--)` loop of `subscribe` (lines 44-57), which walks the
requested bundle ids from the last to the first: an id already in
`bundleResultCache` has `fn` run immediately on the cached result
(any cached array, even an empty one, is truthy); otherwise `fn`'s id is
appended to that bundle's callback queue. -/
def subscribeLoop (wid : Nat) (rev : List String) (st : State) : State :=
  match rev with
  | [] => st
  | b :: rest =>
    match st.bundleResultCache b with
    | some r => subscribeLoop wid rest (runWaiterFn st wid b r)
    | none => subscribeLoop wid rest (pushQueue st b wid)

/-- `subscribe(bundleIds, callbackFn)` (lines 26-58): allocates the
closure `fn` with `depsNotFound = []` and `numWaiting = bundleIds.length`,
then runs the registration loop (which processes the ids in reverse). -/
def subscribe (bundleIds : List String) (st : State) : State :=
  let wid := st.nextWaiterId
  let st1 : State :=
    { st with
      waiters := fun i =>
        if i = wid then some ⟨[], (bundleIds.length : Int)⟩ else st.waiters i
      nextWaiterId := wid + 1 }
  subscribeLoop wid bundleIds.reverse st1

/-- The queue-draining `while (q.length)` loop of `publish`
(lines 79-82): invoke the front handler with `(bundleId, pathsNotFound)`,
then splice it off the stored queue. -/
def drainLoop (q : List Nat) (bundleId : String) (pathsNotFound : List String) (st : State) :
    State :=
  match q with
  | [] => st
  | w :: rest =>
    drainLoop rest bundleId pathsNotFound (setQueue (runWaiterFn st w bundleId pathsNotFound) bundleId rest)

/-- `publish(bundleId, pathsNotFound)` (lines 66-83): exits at once when
the id is falsy (empty / absent); otherwise records the result in
`bundleResultCache` (unconditionally overwriting) and drains the id's
callback queue front-to-back.  The `published` event marks the moment the
registry is notified. -/
def publish (bundleId : String) (pathsNotFound : List String) (st : State) : State :=
  if bundleId = "" then st
  else
    let st1 := logEvent st (.published bundleId pathsNotFound)
    let q := st1.bundleCallbackQueue bundleId
    let st2 := setCache st1 bundleId pathsNotFound
    drainLoop q bundleId pathsNotFound st2

/-- `loadjs.done(bundleId)` (lines 224-226). -/
def done (bundleId : String) (st : State) : State :=
  publish bundleId [] st

/-- The aggregate completion callback that `loadjs` hands to `loadFiles`
(lines 192-199): fire `args.fail || devnull` on a non-empty failed list,
else `args.success || devnull`, then publish the bundle (`publish` is a
no-op when no bundle id was supplied). -/
def finishLoad (lid : Nat) (bundleId : Option String) (hasSuccess hasFail : Bool)
    (pathsNotFound : List String) (st : State) : State :=
  let st1 :=
    if pathsNotFound.length ≠ 0 then
      logEvent st (.failCb lid pathsNotFound (if hasFail then .user else .devnull))
    else
      logEvent st (.successCb lid (if hasSuccess then .user else .devnull))
  publish (bundleId.getD "") pathsNotFound st1

/-- The per-file resolution handler `fn` created inside `loadFiles`
(lines 146-159), applied when the environment delivers a load / error /
beforeload event for one of the load operation's paths: an `error` result
records the path as failed; a `beforeload` result records it only when
the event was default-prevented and otherwise returns without touching
anything; then the wait counter is decremented and, exactly when it
reaches zero, the aggregate callback runs on the accumulated
`pathsNotFound`. -/
def loadFileEvent (lid : Nat) (path : String) (result : FileResult) (defaultPrevented : Bool)
    (st : State) : State :=
  match st.loads lid with
  | none => st
  | some op =>
    match result, defaultPrevented with
    | .blocked, false => st
    | _, _ =>
      let pathsNotFound :=
        if result = .error ∨ result = .blocked then op.pathsNotFound ++ [path]
        else op.pathsNotFound
      let numWaiting := op.numWaiting - 1
      let st1 := setLoad st lid { op with pathsNotFound := pathsNotFound, numWaiting := numWaiting }
      if numWaiting = 0 then
        finishLoad lid op.bundleId op.hasSuccess op.hasFail pathsNotFound st1
      else st1

/-- User-facing callback presence for one `loadjs` call.  The source's
`async` flag is omitted: it only configures the DOM script element
(line 107) and never reaches the coordinator logic. -/
structure Args where
  hasSuccess : Bool
  hasFail : Bool
deriving DecidableEq, Repr

/-- The dispatch half of `loadjs` (lines 191-199 via `loadFiles`,
lines 139-163): allocate the coordinator closure with
`numWaiting = paths.length` and `pathsNotFound = []`, then issue one
`loadFile` per path in input order. -/
def dispatchLoads (paths : List String) (bundleId : Option String) (args : Args)
    (st : State) : State :=
  let lid := st.nextLoadId
  let st1 : State :=
    { st with
      loads := fun i =>
        if i = lid then
          some ⟨bundleId, args.hasSuccess, args.hasFail, (paths.length : Int), []⟩
        else st.loads i
      nextLoadId := lid + 1 }
  paths.foldl (fun s p => logEvent s (.dispatched lid p)) st1

/-- `loadjs(paths, arg1, arg2)` (lines 173-200): when a bundle id is
supplied, throw `Error("LoadJS")` if it is already in `bundleIdCache`
and otherwise mark it used; then dispatch the per-path loads. -/
def loadjs (paths : List String) (bundleId : Option String) (args : Args) (st : State) :
    Except String State :=
  match bundleId with
  | some b =>
    if st.bundleIdCache b then .error "LoadJS"
    else
      .ok (dispatchLoads paths bundleId args
        { st with bundleIdCache := fun c => if c = b then true else st.bundleIdCache c })
  | none => .ok (dispatchLoads paths bundleId args st)

/-- Outcome of `loadjs.ready`'s subscription callback (lines 210-214). -/
inductive ReadyOutcome
  | success
  | fail (depsNotFound : List String)
deriving DecidableEq, Repr

/-- The body of the callback `loadjs.ready` passes to `subscribe`
(lines 210-214): a non-empty `depsNotFound` goes to the fail callback,
an empty one to the success callback. -/
def readyDispatch (depsNotFound : List String) : ReadyOutcome :=
  if depsNotFound.length ≠ 0 then .fail depsNotFound else .success

/-- `loadjs.ready(deps, args)` (lines 208-217) is `subscribe` with the
ready dispatch callback; the registry-state effect is `subscribe`'s. -/
def ready (deps : List String) (st : State) : State :=
  subscribe deps st

/-- The arguments of every invocation of waiter `wid`'s callback, in
chronological order. -/
def callsOf (st : State) (wid : Nat) : List (List String) :=
  st.events.filterMap fun e =>
    match e with
    | .waiterCalled w l => if w = wid then some l else none
    | _ => none

/-- The ready-level outcomes of waiter `wid`'s callback invocations. -/
def readyOutcomes (st : State) (wid : Nat) : List ReadyOutcome :=
  (callsOf st wid).map readyDispatch

/-- The success/fail aggregate-callback events of load operation `lid`,
in chronological order. -/
def finishesOf (st : State) (lid : Nat) : List Event :=
  st.events.filter fun e =>
    match e with
    | .successCb l _ => l = lid
    | .failCb l _ _ => l = lid
    | _ => false

/-- External interaction alphabet: the public API calls plus delivery of
a file-resolution event by the host environment.  A `load` whose
duplicate-id check throws leaves the state unchanged (the exception
propagates to the caller before anything is mutated). -/
inductive Action
  | ready (deps : List String)
  | load (paths : List String) (bundleId : Option String) (args : Args)
  | doneA (bundleId : String)
  | fileEvent (lid : Nat) (path : String) (result : FileResult) (defaultPrevented : Bool)
  | publishA (bundleId : String) (pathsNotFound : List String)
deriving DecidableEq

def step (st : State) (a : Action) : State :=
  match a with
  | .ready deps => ready deps st
  | .load paths bundleId args =>
    match loadjs paths bundleId args st with
    | .ok st' => st'
    | .error _ => st
  | .doneA b => done b st
  | .fileEvent lid p r dp => loadFileEvent lid p r dp st
  | .publishA b ps => publish b ps st

def run (st : State) (acts : List Action) : State :=
  acts.foldl step st

/-! ### Projection lemmas for the primitive state updates -/

@[simp] lemma logEvent_idCache (st : State) (e : Event) :
    (logEvent st e).bundleIdCache = st.bundleIdCache := rfl

@[simp] lemma logEvent_cache (st : State) (e : Event) :
    (logEvent st e).bundleResultCache = st.bundleResultCache := rfl

@[simp] lemma logEvent_queue (st : State) (e : Event) :
    (logEvent st e).bundleCallbackQueue = st.bundleCallbackQueue := rfl

@[simp] lemma logEvent_waiters (st : State) (e : Event) :
    (logEvent st e).waiters = st.waiters := rfl

@[simp] lemma logEvent_nextWaiterId (st : State) (e : Event) :
    (logEvent st e).nextWaiterId = st.nextWaiterId := rfl

@[simp] lemma logEvent_loads (st : State) (e : Event) :
    (logEvent st e).loads = st.loads := rfl

@[simp] lemma logEvent_nextLoadId (st : State) (e : Event) :
    (logEvent st e).nextLoadId = st.nextLoadId := rfl

@[simp] lemma logEvent_events (st : State) (e : Event) :
    (logEvent st e).events = st.events ++ [e] := rfl

@[simp] lemma setCache_idCache (st : State) (b : String) (r : List String) :
    (setCache st b r).bundleIdCache = st.bundleIdCache := rfl

@[simp] lemma setCache_queue (st : State) (b : String) (r : List String) :
    (setCache st b r).bundleCallbackQueue = st.bundleCallbackQueue := rfl

@[simp] lemma setCache_waiters (st : State) (b : String) (r : List String) :
    (setCache st b r).waiters = st.waiters := rfl

@[simp] lemma setCache_nextWaiterId (st : State) (b : String) (r : List String) :
    (setCache st b r).nextWaiterId = st.nextWaiterId := rfl

@[simp] lemma setCache_loads (st : State) (b : String) (r : List String) :
    (setCache st b r).loads = st.loads := rfl

@[simp] lemma setCache_nextLoadId (st : State) (b : String) (r : List String) :
    (setCache st b r).nextLoadId = st.nextLoadId := rfl

@[simp] lemma setCache_events (st : State) (b : String) (r : List String) :
    (setCache st b r).events = st.events := rfl

lemma setCache_cache (st : State) (b : String) (r : List String) (c : String) :
    (setCache st b r).bundleResultCache c =
      if c = b then some r else st.bundleResultCache c := rfl

@[simp] lemma setQueue_idCache (st : State) (b : String) (q : List Nat) :
    (setQueue st b q).bundleIdCache = st.bundleIdCache := rfl

@[simp] lemma setQueue_cache (st : State) (b : String) (q : List Nat) :
    (setQueue st b q).bundleResultCache = st.bundleResultCache := rfl

@[simp] lemma setQueue_waiters (st : State) (b : String) (q : List Nat) :
    (setQueue st b q).waiters = st.waiters := rfl

@[simp] lemma setQueue_nextWaiterId (st : State) (b : String) (q : List Nat) :
    (setQueue st b q).nextWaiterId = st.nextWaiterId := rfl

@[simp] lemma setQueue_loads (st : State) (b : String) (q : List Nat) :
    (setQueue st b q).loads = st.loads := rfl

@[simp] lemma setQueue_nextLoadId (st : State) (b : String) (q : List Nat) :
    (setQueue st b q).nextLoadId = st.nextLoadId := rfl

@[simp] lemma setQueue_events (st : State) (b : String) (q : List Nat) :
    (setQueue st b q).events = st.events := rfl

lemma setQueue_queue (st : State) (b : String) (q : List Nat) (c : String) :
    (setQueue st b q).bundleCallbackQueue c =
      if c = b then q else st.bundleCallbackQueue c := rfl

@[simp] lemma setQueue_queue_self (st : State) (b : String) (q : List Nat) :
    (setQueue st b q).bundleCallbackQueue b = q := by
  simp [setQueue_queue]

lemma setQueue_queue_ne (st : State) (b : String) (q : List Nat) (c : String) (h : c ≠ b) :
    (setQueue st b q).bundleCallbackQueue c = st.bundleCallbackQueue c := by
  simp [setQueue_queue, h]

@[simp] lemma setWaiter_idCache (st : State) (wid : Nat) (w : Waiter) :
    (setWaiter st wid w).bundleIdCache = st.bundleIdCache := rfl

@[simp] lemma setWaiter_cache (st : State) (wid : Nat) (w : Waiter) :
    (setWaiter st wid w).bundleResultCache = st.bundleResultCache := rfl

@[simp] lemma setWaiter_queue (st : State) (wid : Nat) (w : Waiter) :
    (setWaiter st wid w).bundleCallbackQueue = st.bundleCallbackQueue := rfl

@[simp] lemma setWaiter_nextWaiterId (st : State) (wid : Nat) (w : Waiter) :
    (setWaiter st wid w).nextWaiterId = st.nextWaiterId := rfl

@[simp] lemma setWaiter_loads (st : State) (wid : Nat) (w : Waiter) :
    (setWaiter st wid w).loads = st.loads := rfl

@[simp] lemma setWaiter_nextLoadId (st : State) (wid : Nat) (w : Waiter) :
    (setWaiter st wid w).nextLoadId = st.nextLoadId := rfl

@[simp] lemma setWaiter_events (st : State) (wid : Nat) (w : Waiter) :
    (setWaiter st wid w).events = st.events := rfl

lemma setWaiter_waiters (st : State) (wid : Nat) (w : Waiter) (i : Nat) :
    (setWaiter st wid w).waiters i = if i = wid then some w else st.waiters i := rfl

@[simp] lemma setLoad_idCache (st : State) (lid : Nat) (op : LoadOp) :
    (setLoad st lid op).bundleIdCache = st.bundleIdCache := rfl

@[simp] lemma setLoad_cache (st : State) (lid : Nat) (op : LoadOp) :
    (setLoad st lid op).bundleResultCache = st.bundleResultCache := rfl

@[simp] lemma setLoad_queue (st : State) (lid : Nat) (op : LoadOp) :
    (setLoad st lid op).bundleCallbackQueue = st.bundleCallbackQueue := rfl

@[simp] lemma setLoad_waiters (st : State) (lid : Nat) (op : LoadOp) :
    (setLoad st lid op).waiters = st.waiters := rfl

@[simp] lemma setLoad_nextWaiterId (st : State) (lid : Nat) (op : LoadOp) :
    (setLoad st lid op).nextWaiterId = st.nextWaiterId := rfl

@[simp] lemma setLoad_nextLoadId (st : State) (lid : Nat) (op : LoadOp) :
    (setLoad st lid op).nextLoadId = st.nextLoadId := rfl

@[simp] lemma setLoad_events (st : State) (lid : Nat) (op : LoadOp) :
    (setLoad st lid op).events = st.events := rfl

lemma setLoad_loads (st : State) (lid : Nat) (op : LoadOp) (i : Nat) :
    (setLoad st lid op).loads i = if i = lid then some op else st.loads i := rfl

/-! ### Observation lemmas for the event log -/

/-- The waiter-call record contributed by a single event. -/
def callHit (wid : Nat) (e : Event) : List (List String) :=
  match e with
  | .waiterCalled w l => if w = wid then [l] else []
  | _ => []

/-- Whether an event is a success/fail aggregate-callback event of `lid`. -/
def isFinish (lid : Nat) (e : Event) : Bool :=
  match e with
  | .successCb l _ => l = lid
  | .failCb l _ _ => l = lid
  | _ => false

lemma callsOf_eq (st : State) (wid : Nat) :
    callsOf st wid = st.events.flatMap (callHit wid) := by
  unfold callsOf
  induction st.events with
  | nil => rfl
  | cons e es ih =>
    simp only [List.filterMap_cons, List.flatMap_cons, ← ih]
    cases e with
    | waiterCalled w l => by_cases hw : w = wid <;> simp [callHit, hw]
    | dispatched lid p => simp [callHit]
    | successCb lid t => simp [callHit]
    | failCb lid ps t => simp [callHit]
    | published b ps => simp [callHit]

lemma finishesOf_eq (st : State) (lid : Nat) :
    finishesOf st lid = st.events.filter (isFinish lid) := by
  unfold finishesOf
  congr 1

lemma callsOf_logEvent (st : State) (e : Event) (wid : Nat) :
    callsOf (logEvent st e) wid = callsOf st wid ++ callHit wid e := by
  have h : (logEvent st e).events = st.events ++ [e] := rfl
  rw [callsOf_eq, callsOf_eq, h, List.flatMap_append]
  simp

lemma finishesOf_logEvent (st : State) (e : Event) (lid : Nat) :
    finishesOf (logEvent st e) lid =
      finishesOf st lid ++ (if isFinish lid e then [e] else []) := by
  have h : (logEvent st e).events = st.events ++ [e] := rfl
  rw [finishesOf_eq, finishesOf_eq, h, List.filter_append]
  cases hf : isFinish lid e <;> simp [List.filter, hf]

@[simp] lemma callHit_dispatched (wid lid : Nat) (p : String) :
    callHit wid (.dispatched lid p) = [] := rfl

@[simp] lemma callHit_successCb (wid lid : Nat) (t : CbTarget) :
    callHit wid (.successCb lid t) = [] := rfl

@[simp] lemma callHit_failCb (wid lid : Nat) (ps : List String) (t : CbTarget) :
    callHit wid (.failCb lid ps t) = [] := rfl

@[simp] lemma callHit_published (wid : Nat) (b : String) (ps : List String) :
    callHit wid (.published b ps) = [] := rfl

lemma callHit_waiterCalled (wid w : Nat) (l : List String) :
    callHit wid (.waiterCalled w l) = if w = wid then [l] else [] := rfl

@[simp] lemma isFinish_dispatched (lid l : Nat) (p : String) :
    isFinish lid (.dispatched l p) = false := rfl

@[simp] lemma isFinish_waiterCalled (lid w : Nat) (l : List String) :
    isFinish lid (.waiterCalled w l) = false := rfl

@[simp] lemma isFinish_published (lid : Nat) (b : String) (ps : List String) :
    isFinish lid (.published b ps) = false := rfl

/-! ### Frame lemmas for `runWaiterFn` -/

lemma runWaiterFn_idCache (st : State) (w : Nat) (b : String) (ps : List String) :
    (runWaiterFn st w b ps).bundleIdCache = st.bundleIdCache := by
  unfold runWaiterFn
  cases st.waiters w with
  | none => rfl
  | some wt => simp only []; split <;> rfl

lemma runWaiterFn_cache (st : State) (w : Nat) (b : String) (ps : List String) :
    (runWaiterFn st w b ps).bundleResultCache = st.bundleResultCache := by
  unfold runWaiterFn
  cases st.waiters w with
  | none => rfl
  | some wt => simp only []; split <;> rfl

lemma runWaiterFn_queue (st : State) (w : Nat) (b : String) (ps : List String) :
    (runWaiterFn st w b ps).bundleCallbackQueue = st.bundleCallbackQueue := by
  unfold runWaiterFn
  cases st.waiters w with
  | none => rfl
  | some wt => simp only []; split <;> rfl

lemma runWaiterFn_nextWaiterId (st : State) (w : Nat) (b : String) (ps : List String) :
    (runWaiterFn st w b ps).nextWaiterId = st.nextWaiterId := by
  unfold runWaiterFn
  cases st.waiters w with
  | none => rfl
  | some wt => simp only []; split <;> rfl

lemma runWaiterFn_loads (st : State) (w : Nat) (b : String) (ps : List String) :
    (runWaiterFn st w b ps).loads = st.loads := by
  unfold runWaiterFn
  cases st.waiters w with
  | none => rfl
  | some wt => simp only []; split <;> rfl

lemma runWaiterFn_nextLoadId (st : State) (w : Nat) (b : String) (ps : List String) :
    (runWaiterFn st w b ps).nextLoadId = st.nextLoadId := by
  unfold runWaiterFn
  cases st.waiters w with
  | none => rfl
  | some wt => simp only []; split <;> rfl

lemma runWaiterFn_waiters_ne (st : State) (w : Nat) (b : String) (ps : List String)
    (i : Nat) (h : i ≠ w) :
    (runWaiterFn st w b ps).waiters i = st.waiters i := by
  unfold runWaiterFn
  cases st.waiters w with
  | none => rfl
  | some wt =>
    simp only []
    split <;> simp [setWaiter_waiters, h]

lemma callsOf_runWaiterFn_ne (st : State) (w : Nat) (b : String) (ps : List String)
    (wid : Nat) (h : w ≠ wid) :
    callsOf (runWaiterFn st w b ps) wid = callsOf st wid := by
  unfold runWaiterFn
  cases st.waiters w with
  | none => rfl
  | some wt =>
    simp only []
    split
    · rw [callsOf_logEvent]
      simp [callHit_waiterCalled, h, callsOf_eq]
    · simp [callsOf_eq]

lemma finishesOf_runWaiterFn (st : State) (w : Nat) (b : String) (ps : List String)
    (lid : Nat) :
    finishesOf (runWaiterFn st w b ps) lid = finishesOf st lid := by
  unfold runWaiterFn
  cases st.waiters w with
  | none => rfl
  | some wt =>
    simp only []
    split
    · rw [finishesOf_logEvent]
      simp [isFinish, finishesOf_eq]
    · simp [finishesOf_eq]

/-! ### Frame lemmas for `drainLoop` and `publish` -/

lemma drainLoop_idCache (q : List Nat) (b : String) (ps : List String) (st : State) :
    (drainLoop q b ps st).bundleIdCache = st.bundleIdCache := by
  induction q generalizing st with
  | nil => rfl
  | cons w rest ih => simp [drainLoop, ih, runWaiterFn_idCache]

lemma drainLoop_cache (q : List Nat) (b : String) (ps : List String) (st : State) :
    (drainLoop q b ps st).bundleResultCache = st.bundleResultCache := by
  induction q generalizing st with
  | nil => rfl
  | cons w rest ih => simp [drainLoop, ih, runWaiterFn_cache]

lemma drainLoop_nextWaiterId (q : List Nat) (b : String) (ps : List String) (st : State) :
    (drainLoop q b ps st).nextWaiterId = st.nextWaiterId := by
  induction q generalizing st with
  | nil => rfl
  | cons w rest ih => simp [drainLoop, ih, runWaiterFn_nextWaiterId]

lemma drainLoop_loads (q : List Nat) (b : String) (ps : List String) (st : State) :
    (drainLoop q b ps st).loads = st.loads := by
  induction q generalizing st with
  | nil => rfl
  | cons w rest ih => simp [drainLoop, ih, runWaiterFn_loads]

lemma drainLoop_nextLoadId (q : List Nat) (b : String) (ps : List String) (st : State) :
    (drainLoop q b ps st).nextLoadId = st.nextLoadId := by
  induction q generalizing st with
  | nil => rfl
  | cons w rest ih => simp [drainLoop, ih, runWaiterFn_nextLoadId]

lemma drainLoop_queue_ne (q : List Nat) (b : String) (ps : List String) (st : State)
    (c : String) (h : c ≠ b) :
    (drainLoop q b ps st).bundleCallbackQueue c = st.bundleCallbackQueue c := by
  induction q generalizing st with
  | nil => rfl
  | cons w rest ih =>
    rw [drainLoop, ih, setQueue_queue_ne _ _ _ _ h, runWaiterFn_queue]

lemma drainLoop_waiters_not_mem (q : List Nat) (b : String) (ps : List String) (st : State)
    (wid : Nat) (h : wid ∉ q) :
    (drainLoop q b ps st).waiters wid = st.waiters wid := by
  induction q generalizing st with
  | nil => rfl
  | cons w rest ih =>
    rw [drainLoop, ih _ (fun hm => h (List.mem_cons_of_mem w hm)), setQueue_waiters,
      runWaiterFn_waiters_ne]
    exact fun he => h (he ▸ List.mem_cons_self w rest)

lemma callsOf_drainLoop_not_mem (q : List Nat) (b : String) (ps : List String) (st : State)
    (wid : Nat) (h : wid ∉ q) :
    callsOf (drainLoop q b ps st) wid = callsOf st wid := by
  induction q generalizing st with
  | nil => rfl
  | cons w rest ih =>
    rw [drainLoop, ih _ (fun hm => h (List.mem_cons_of_mem w hm))]
    rw [callsOf_eq, callsOf_eq, setQueue_events]
    rw [← callsOf_eq, ← callsOf_eq, callsOf_runWaiterFn_ne]
    exact fun he => h (he ▸ List.mem_cons_self w rest)

lemma finishesOf_drainLoop (q : List Nat) (b : String) (ps : List String) (st : State)
    (lid : Nat) :
    finishesOf (drainLoop q b ps st) lid = finishesOf st lid := by
  induction q generalizing st with
  | nil => rfl
  | cons w rest ih =>
    rw [drainLoop, ih]
    rw [finishesOf_eq, finishesOf_eq, setQueue_events, ← finishesOf_eq, ← finishesOf_eq,
      finishesOf_runWaiterFn]

lemma runWaiterFn_setQueue (st : State) (b : String) (qv : List Nat) (w : Nat) (c : String)
    (ps : List String) :
    runWaiterFn (setQueue st b qv) w c ps = setQueue (runWaiterFn st w c ps) b qv := by
  unfold runWaiterFn
  rw [setQueue_waiters]
  cases st.waiters w with
  | none => rfl
  | some wt =>
    simp only []
    split <;> rfl

lemma foldl_runWaiterFn_setQueue (q : List Nat) (st : State) (b : String) (qv : List Nat)
    (c : String) (ps : List String) :
    q.foldl (fun s w => runWaiterFn s w c ps) (setQueue st b qv) =
      setQueue (q.foldl (fun s w => runWaiterFn s w c ps) st) b qv := by
  induction q generalizing st with
  | nil => rfl
  | cons w rest ih => simp only [List.foldl_cons, runWaiterFn_setQueue, ih]

lemma setQueue_setQueue (st : State) (b : String) (q1 q2 : List Nat) :
    setQueue (setQueue st b q1) b q2 = setQueue st b q2 := by
  ext1
  all_goals try rfl
  funext c
  by_cases hc : c = b <;> simp [setQueue_queue, hc]

lemma setQueue_eq_self (st : State) (b : String) (q : List Nat)
    (h : st.bundleCallbackQueue b = q) :
    setQueue st b q = st := by
  ext1
  all_goals try rfl
  funext c
  by_cases hc : c = b <;> simp [setQueue_queue, hc, h]

/-- The destructive front-to-back drain of `publish` is the FIFO fold of
the settlement handler over the queued handler list, with the stored
queue left empty. -/
lemma drainLoop_eq_foldl (q : List Nat) (b : String) (ps : List String) (st : State)
    (hq : st.bundleCallbackQueue b = q) :
    drainLoop q b ps st =
      setQueue (q.foldl (fun s w => runWaiterFn s w b ps) st) b [] := by
  induction q generalizing st with
  | nil =>
    rw [drainLoop, List.foldl_nil, setQueue_eq_self st b [] hq]
  | cons w rest ih =>
    rw [drainLoop, ih _ (by simp), foldl_runWaiterFn_setQueue, setQueue_setQueue,
      List.foldl_cons]

lemma publish_empty_id (ps : List String) (st : State) : publish "" ps st = st := by
  simp [publish]

lemma publish_eq_foldl (b : String) (ps : List String) (st : State) (hb : b ≠ "") :
    publish b ps st =
      setQueue
        ((st.bundleCallbackQueue b).foldl (fun s w => runWaiterFn s w b ps)
          (setCache (logEvent st (.published b ps)) b ps)) b [] := by
  unfold publish
  rw [if_neg hb]
  exact drainLoop_eq_foldl _ _ _ _ rfl

lemma publish_idCache (b : String) (ps : List String) (st : State) :
    (publish b ps st).bundleIdCache = st.bundleIdCache := by
  unfold publish
  split
  · rfl
  · rw [drainLoop_idCache]; rfl

lemma publish_nextWaiterId (b : String) (ps : List String) (st : State) :
    (publish b ps st).nextWaiterId = st.nextWaiterId := by
  unfold publish
  split
  · rfl
  · rw [drainLoop_nextWaiterId]; rfl

lemma publish_loads (b : String) (ps : List String) (st : State) :
    (publish b ps st).loads = st.loads := by
  unfold publish
  split
  · rfl
  · rw [drainLoop_loads]; rfl

lemma publish_nextLoadId (b : String) (ps : List String) (st : State) :
    (publish b ps st).nextLoadId = st.nextLoadId := by
  unfold publish
  split
  · rfl
  · rw [drainLoop_nextLoadId]; rfl

lemma publish_cache_ne (b : String) (ps : List String) (st : State) (c : String) (h : c ≠ b) :
    (publish b ps st).bundleResultCache c = st.bundleResultCache c := by
  unfold publish
  split
  · rfl
  · rw [drainLoop_cache]
    simp [setCache_cache, h]

lemma publish_cache_self (b : String) (ps : List String) (st : State) (hb : b ≠ "") :
    (publish b ps st).bundleResultCache b = some ps := by
  unfold publish
  rw [if_neg hb, drainLoop_cache]
  simp [setCache_cache]

lemma publish_queue_ne (b : String) (ps : List String) (st : State) (c : String) (h : c ≠ b) :
    (publish b ps st).bundleCallbackQueue c = st.bundleCallbackQueue c := by
  unfold publish
  split
  · rfl
  · rw [drainLoop_queue_ne _ _ _ _ _ h]; rfl

lemma publish_queue_self (b : String) (ps : List String) (st : State) (hb : b ≠ "") :
    (publish b ps st).bundleCallbackQueue b = [] := by
  rw [publish_eq_foldl _ _ _ hb, setQueue_queue_self]

lemma publish_waiters_not_mem (b : String) (ps : List String) (st : State) (wid : Nat)
    (h : wid ∉ st.bundleCallbackQueue b) :
    (publish b ps st).waiters wid = st.waiters wid := by
  unfold publish
  split
  · rfl
  · rw [drainLoop_waiters_not_mem _ _ _ _ _ (by simpa using h)]; rfl

lemma callsOf_publish_not_mem (b : String) (ps : List String) (st : State) (wid : Nat)
    (h : wid ∉ st.bundleCallbackQueue b) :
    callsOf (publish b ps st) wid = callsOf st wid := by
  unfold publish
  split
  · rfl
  · rw [callsOf_drainLoop_not_mem _ _ _ _ _ (by simpa using h)]
    rw [callsOf_eq, setCache_events, logEvent_events, List.flatMap_append, ← callsOf_eq]
    simp

lemma finishesOf_publish (b : String) (ps : List String) (st : State) (lid : Nat) :
    finishesOf (publish b ps st) lid = finishesOf st lid := by
  unfold publish
  split
  · rfl
  · rw [finishesOf_drainLoop]
    rw [finishesOf_eq, setCache_events, logEvent_events, List.filter_append, ← finishesOf_eq]
    simp

/-! ### Frame lemmas for `subscribe`, `dispatchLoads`, `finishLoad` -/

lemma subscribeLoop_cache (wid : Nat) (rev : List String) (st : State) :
    (subscribeLoop wid rev st).bundleResultCache = st.bundleResultCache := by
  induction rev generalizing st with
  | nil => rfl
  | cons b rest ih =>
    rw [subscribeLoop]
    cases st.bundleResultCache b <;> simp only [] <;> rw [ih] <;>
      simp [runWaiterFn_cache, pushQueue]

lemma subscribeLoop_idCache (wid : Nat) (rev : List String) (st : State) :
    (subscribeLoop wid rev st).bundleIdCache = st.bundleIdCache := by
  induction rev generalizing st with
  | nil => rfl
  | cons b rest ih =>
    rw [subscribeLoop]
    cases st.bundleResultCache b <;> simp only [] <;> rw [ih] <;>
      simp [runWaiterFn_idCache, pushQueue]

lemma subscribeLoop_loads (wid : Nat) (rev : List String) (st : State) :
    (subscribeLoop wid rev st).loads = st.loads := by
  induction rev generalizing st with
  | nil => rfl
  | cons b rest ih =>
    rw [subscribeLoop]
    cases st.bundleResultCache b <;> simp only [] <;> rw [ih] <;>
      simp [runWaiterFn_loads, pushQueue]

lemma subscribeLoop_nextLoadId (wid : Nat) (rev : List String) (st : State) :
    (subscribeLoop wid rev st).nextLoadId = st.nextLoadId := by
  induction rev generalizing st with
  | nil => rfl
  | cons b rest ih =>
    rw [subscribeLoop]
    cases st.bundleResultCache b <;> simp only [] <;> rw [ih] <;>
      simp [runWaiterFn_nextLoadId, pushQueue]

lemma subscribeLoop_nextWaiterId (wid : Nat) (rev : List String) (st : State) :
    (subscribeLoop wid rev st).nextWaiterId = st.nextWaiterId := by
  induction rev generalizing st with
  | nil => rfl
  | cons b rest ih =>
    rw [subscribeLoop]
    cases st.bundleResultCache b <;> simp only [] <;> rw [ih] <;>
      simp [runWaiterFn_nextWaiterId, pushQueue]

lemma finishesOf_subscribeLoop (wid : Nat) (rev : List String) (st : State) (lid : Nat) :
    finishesOf (subscribeLoop wid rev st) lid = finishesOf st lid := by
  induction rev generalizing st with
  | nil => rfl
  | cons b rest ih =>
    rw [subscribeLoop]
    cases st.bundleResultCache b <;> simp only [] <;> rw [ih]
    · unfold pushQueue
      rw [finishesOf_eq, setQueue_events, ← finishesOf_eq]
    · rw [finishesOf_runWaiterFn]

lemma subscribe_cache (ids : List String) (st : State) :
    (subscribe ids st).bundleResultCache = st.bundleResultCache := by
  unfold subscribe
  rw [subscribeLoop_cache]

lemma subscribe_idCache (ids : List String) (st : State) :
    (subscribe ids st).bundleIdCache = st.bundleIdCache := by
  unfold subscribe
  rw [subscribeLoop_idCache]

lemma subscribe_loads (ids : List String) (st : State) :
    (subscribe ids st).loads = st.loads := by
  unfold subscribe
  rw [subscribeLoop_loads]

lemma subscribe_nextLoadId (ids : List String) (st : State) :
    (subscribe ids st).nextLoadId = st.nextLoadId := by
  unfold subscribe
  rw [subscribeLoop_nextLoadId]

lemma subscribe_nextWaiterId (ids : List String) (st : State) :
    (subscribe ids st).nextWaiterId = st.nextWaiterId + 1 := by
  unfold subscribe
  rw [subscribeLoop_nextWaiterId]

lemma finishesOf_subscribe (ids : List String) (st : State) (lid : Nat) :
    finishesOf (subscribe ids st) lid = finishesOf st lid := by
  unfold subscribe
  rw [finishesOf_subscribeLoop]
  rw [finishesOf_eq, finishesOf_eq]

lemma foldl_logEvent_dispatch (paths : List String) (lid : Nat) (st : State) :
    paths.foldl (fun s p => logEvent s (.dispatched lid p)) st =
      { st with events := st.events ++ paths.map (Event.dispatched lid) } := by
  induction paths generalizing st with
  | nil => rw [List.foldl_nil, List.map_nil, List.append_nil]
  | cons p rest ih =>
    rw [List.foldl_cons, ih, List.map_cons]
    simp [logEvent]

lemma dispatchLoads_eq (paths : List String) (bid : Option String) (args : Args) (st : State) :
    dispatchLoads paths bid args st =
      { st with
        loads := fun i =>
          if i = st.nextLoadId then
            some ⟨bid, args.hasSuccess, args.hasFail, (paths.length : Int), []⟩
          else st.loads i
        nextLoadId := st.nextLoadId + 1
        events := st.events ++ paths.map (Event.dispatched st.nextLoadId) } := by
  unfold dispatchLoads
  rw [foldl_logEvent_dispatch]

lemma finishLoad_loads (lid : Nat) (bid : Option String) (hS hF : Bool) (ps : List String)
    (st : State) :
    (finishLoad lid bid hS hF ps st).loads = st.loads := by
  unfold finishLoad
  split <;> rw [publish_loads, logEvent_loads]

lemma finishesOf_finishLoad_self (lid : Nat) (bid : Option String) (hS hF : Bool)
    (ps : List String) (st : State) :
    finishesOf (finishLoad lid bid hS hF ps st) lid =
      finishesOf st lid ++
        [if ps.length ≠ 0 then .failCb lid ps (if hF then .user else .devnull)
         else .successCb lid (if hS then .user else .devnull)] := by
  unfold finishLoad
  split <;> rw [finishesOf_publish, finishesOf_logEvent] <;> simp [isFinish]

/-! ### Subscribing to a single already-cached bundle id -/

lemma callsOf_subscribe_single_cached (b : String) (st : State) (r : List String)
    (h : st.bundleResultCache b = some r) :
    callsOf (subscribe [b] st) st.nextWaiterId =
      callsOf st st.nextWaiterId ++ [if r.length ≠ 0 then [b] else []] := by
  have e1 : subscribe [b] st =
      subscribeLoop st.nextWaiterId [b]
        { st with
          waiters := fun i =>
            if i = st.nextWaiterId then some ⟨[], (1 : Int)⟩ else st.waiters i
          nextWaiterId := st.nextWaiterId + 1 } := rfl
  set st1 : State :=
    { st with
      waiters := fun i =>
        if i = st.nextWaiterId then some ⟨[], (1 : Int)⟩ else st.waiters i
      nextWaiterId := st.nextWaiterId + 1 } with hst1
  have e2 : st1.bundleResultCache b = some r := h
  have e4 : st1.waiters st.nextWaiterId = some ⟨[], (1 : Int)⟩ := by
    rw [hst1]
    simp
  have e3 : subscribe [b] st = runWaiterFn st1 st.nextWaiterId b r := by
    rw [e1, subscribeLoop, e2]
    rfl
  have e5 : ∀ w', callsOf (setWaiter st1 st.nextWaiterId w') st.nextWaiterId =
      callsOf st st.nextWaiterId := by
    intro w'
    rw [callsOf_eq, setWaiter_events, ← callsOf_eq]
    rfl
  rw [e3]
  unfold runWaiterFn
  rw [e4]
  simp only []
  norm_num
  rw [callsOf_logEvent, callHit_waiterCalled, if_pos rfl, e5]

/-- C5: `publish(bundleId, failedPaths)` is a no-op when the bundle id is
empty/absent; otherwise it records `failedPaths` as the cached result for
the id, empties the id's pending queue, leaves every other id's cache and
queue untouched, and its entire effect is the in-order (FIFO) left-fold
of the settlement handler — each queued handler invoked with the pair
`(bundleId, failedPaths)` — over the previously queued handler list. -/
theorem publish_contract (b : String) (ps : List String) (st : State) (hb : b ≠ "") :
    publish "" ps st = st ∧
    (publish b ps st).bundleResultCache b = some ps ∧
    (publish b ps st).bundleCallbackQueue b = [] ∧
    (∀ c, c ≠ b →
      (publish b ps st).bundleResultCache c = st.bundleResultCache c ∧
      (publish b ps st).bundleCallbackQueue c = st.bundleCallbackQueue c) ∧
    publish b ps st =
      setQueue
        ((st.bundleCallbackQueue b).foldl (fun s w => runWaiterFn s w b ps)
          (setCache (logEvent st (.published b ps)) b ps)) b [] :=
  ⟨publish_empty_id ps st, publish_cache_self b ps st hb, publish_queue_self b ps st hb,
    fun c hc => ⟨publish_cache_ne b ps st c hc, publish_queue_ne b ps st c hc⟩,
    publish_eq_foldl b ps st hb⟩

/-- Witness for C5 at a concrete input: publishing `"x" ↦ ["p"]` over a
state with one subscriber queued on `"x"` caches the result and empties
the queue, and publishing under the empty id changes nothing. -/
theorem publish_contract_witness :
    ("x" : String) ≠ "" ∧
    (publish "x" ["p"] (subscribe ["x"] initState)).bundleResultCache "x" = some ["p"] ∧
    (publish "x" ["p"] (subscribe ["x"] initState)).bundleCallbackQueue "x" = [] ∧
    publish "" ["p"] (subscribe ["x"] initState) = subscribe ["x"] initState :=
  ⟨by decide,
    (publish_contract "x" ["p"] (subscribe ["x"] initState) (by decide)).2.1,
    (publish_contract "x" ["p"] (subscribe ["x"] initState) (by decide)).2.2.1,
    (publish_contract "x" ["p"] (subscribe ["x"] initState) (by decide)).1⟩

/-- C6 counterexample: the recorded result of a published bundle id is
not immutable — `done` (which is `publish` of an empty list) overwrites
the previously published result `["a"]` of `"x"` with `[]`. -/
theorem published_result_not_immutable :
    (publish "x" ["a"] initState).bundleResultCache "x" = some ["a"] ∧
    (done "x" (publish "x" ["a"] initState)).bundleResultCache "x" = some [] := by
  constructor <;> rfl

/-- C6 amended: once a result is published for a bundle id it is changed
only by a later publish (or `done`) of that same id, which overwrites it
with the newly published list; `subscribe` and publishes of other ids
leave it unchanged, so a later subscriber observes the most recently
published result (not necessarily the first). -/
theorem published_result_stability (b : String) (r : List String) (st : State)
    (h : st.bundleResultCache b = some r) :
    (∀ ids, (subscribe ids st).bundleResultCache b = some r) ∧
    (∀ c ps, c ≠ b → (publish c ps st).bundleResultCache b = some r) ∧
    (∀ ps, b ≠ "" → (publish b ps st).bundleResultCache b = some ps) :=
  ⟨fun ids => by rw [subscribe_cache]; exact h,
    fun c ps hc => by rw [publish_cache_ne c ps st b (fun hcb => hc hcb.symm)]; exact h,
    fun ps hb => publish_cache_self b ps st hb⟩

/-- Witness for C6's amended statement at a concrete input. -/
theorem published_result_stability_witness :
    (publish "x" ["a"] initState).bundleResultCache "x" = some ["a"] ∧
    (subscribe ["y"] (publish "x" ["a"] initState)).bundleResultCache "x" = some ["a"] ∧
    (publish "y" ["q"] (publish "x" ["a"] initState)).bundleResultCache "x" = some ["a"] ∧
    (publish "x" ["b"] (publish "x" ["a"] initState)).bundleResultCache "x" = some ["b"] :=
  ⟨by decide,
    (published_result_stability "x" ["a"] (publish "x" ["a"] initState) (by decide)).1 ["y"],
    (published_result_stability "x" ["a"] (publish "x" ["a"] initState) (by decide)).2.1
      "y" ["q"] (by decide),
    (published_result_stability "x" ["a"] (publish "x" ["a"] initState) (by decide)).2.2
      ["b"] (by decide)⟩

/-- C7: `done(bundleId)` force-publishes the empty failed-paths list with
no registration check (note: no hypothesis about `bundleIdCache` or any
prior load appears), so its result is cached, any queued subscriber is
drained at that moment, and a subsequent `ready` of that id fires its
callback immediately with no failed deps — which the ready dispatch turns
into the success callback. -/
theorem done_then_ready (b : String) (st : State) (hb : b ≠ "") :
    done b st = publish b [] st ∧
    (done b st).bundleResultCache b = some [] ∧
    (done b st).bundleCallbackQueue b = [] ∧
    callsOf (subscribe [b] (done b st)) (done b st).nextWaiterId =
      callsOf (done b st) (done b st).nextWaiterId ++ [[]] ∧
    readyOutcomes (subscribe [b] (done b st)) (done b st).nextWaiterId =
      readyOutcomes (done b st) (done b st).nextWaiterId ++ [.success] := by
  have hc : (done b st).bundleResultCache b = some [] := publish_cache_self b [] st hb
  have hcall := callsOf_subscribe_single_cached b (done b st) [] hc
  simp only [List.length_nil, ne_eq, not_true_eq_false, if_neg, ite_false] at hcall
  refine ⟨rfl, hc, publish_queue_self b [] st hb, hcall, ?_⟩
  unfold readyOutcomes
  rw [hcall, List.map_append]
  rfl

/-- Witness for C7 at a concrete input: `done "x"` on the initial state
followed by `ready ["x"]` invokes the waiter once with no failed deps,
i.e. the success callback. -/
theorem done_then_ready_witness :
    ("x" : String) ≠ "" ∧
    (done "x" initState).bundleResultCache "x" = some [] ∧
    callsOf (subscribe ["x"] (done "x" initState)) (done "x" initState).nextWaiterId =
      callsOf (done "x" initState) (done "x" initState).nextWaiterId ++ [[]] ∧
    readyOutcomes (subscribe ["x"] (done "x" initState)) (done "x" initState).nextWaiterId =
      readyOutcomes (done "x" initState) (done "x" initState).nextWaiterId ++ [.success] :=
  ⟨by decide,
    (done_then_ready "x" initState (by decide)).2.1,
    (done_then_ready "x" initState (by decide)).2.2.2.1,
    (done_then_ready "x" initState (by decide)).2.2.2.2⟩

/-! ### Lemmas about `loadjs` dispatch and per-file resolution -/

lemma finishesOf_setLoad (st : State) (lid : Nat) (op : LoadOp) (l : Nat) :
    finishesOf (setLoad st lid op) l = finishesOf st l := by
  rw [finishesOf_eq, setLoad_events, ← finishesOf_eq]

lemma callsOf_setLoad (st : State) (lid : Nat) (op : LoadOp) (wid : Nat) :
    callsOf (setLoad st lid op) wid = callsOf st wid := by
  rw [callsOf_eq, setLoad_events, ← callsOf_eq]

lemma dispatchLoads_idCache (paths : List String) (bid : Option String) (args : Args)
    (st : State) :
    (dispatchLoads paths bid args st).bundleIdCache = st.bundleIdCache := by
  rw [dispatchLoads_eq]

lemma loadjs_ok_loads (paths : List String) (bid : Option String) (args : Args)
    (st0 st1 : State) (h : loadjs paths bid args st0 = .ok st1) :
    st1.loads st0.nextLoadId =
      some ⟨bid, args.hasSuccess, args.hasFail, (paths.length : Int), []⟩ := by
  unfold loadjs at h
  cases bid with
  | none =>
    simp only [Except.ok.injEq] at h
    rw [← h, dispatchLoads_eq]
    simp
  | some b =>
    simp only [] at h
    by_cases hb : st0.bundleIdCache b
    · rw [if_pos hb] at h
      exact absurd h (by simp)
    · rw [if_neg hb] at h
      simp only [Except.ok.injEq] at h
      rw [← h, dispatchLoads_eq]
      simp

lemma loadFileEvent_blocked_ignored (lid : Nat) (path : String) (st : State) :
    loadFileEvent lid path .blocked false st = st := by
  unfold loadFileEvent
  cases st.loads lid <;> rfl

lemma loadFileEvent_error_eq (lid : Nat) (path : String) (dp : Bool) (st : State)
    (op : LoadOp) (h : st.loads lid = some op) :
    loadFileEvent lid path .error dp st =
      (let st1 := setLoad st lid
        { op with pathsNotFound := op.pathsNotFound ++ [path],
                  numWaiting := op.numWaiting - 1 }
       if op.numWaiting - 1 = 0 then
         finishLoad lid op.bundleId op.hasSuccess op.hasFail (op.pathsNotFound ++ [path]) st1
       else st1) := by
  unfold loadFileEvent
  rw [h]
  cases dp <;> simp

lemma loadFileEvent_blocked_confirmed_eq (lid : Nat) (path : String) (st : State)
    (op : LoadOp) (h : st.loads lid = some op) :
    loadFileEvent lid path .blocked true st =
      (let st1 := setLoad st lid
        { op with pathsNotFound := op.pathsNotFound ++ [path],
                  numWaiting := op.numWaiting - 1 }
       if op.numWaiting - 1 = 0 then
         finishLoad lid op.bundleId op.hasSuccess op.hasFail (op.pathsNotFound ++ [path]) st1
       else st1) := by
  unfold loadFileEvent
  rw [h]
  simp

lemma loadFileEvent_success_eq (lid : Nat) (path : String) (dp : Bool) (st : State)
    (op : LoadOp) (h : st.loads lid = some op) :
    loadFileEvent lid path .success dp st =
      (let st1 := setLoad st lid { op with numWaiting := op.numWaiting - 1 }
       if op.numWaiting - 1 = 0 then
         finishLoad lid op.bundleId op.hasSuccess op.hasFail op.pathsNotFound st1
       else st1) := by
  unfold loadFileEvent
  rw [h]
  cases dp <;> simp

lemma terminal_loads_self (lid : Nat) (st : State) (op : LoadOp) (op' : LoadOp)
    (bid : Option String) (hS hF : Bool) (ps : List String) :
    ((let st1 := setLoad st lid op'
      if op.numWaiting - 1 = 0 then finishLoad lid bid hS hF ps st1 else st1) : State).loads
        lid = some op' := by
  simp only []
  split
  · rw [finishLoad_loads, setLoad_loads, if_pos rfl]
  · rw [setLoad_loads, if_pos rfl]

lemma terminal_finishes_len (lid : Nat) (st : State) (op : LoadOp) (op' : LoadOp)
    (bid : Option String) (hS hF : Bool) (ps : List String) :
    (finishesOf ((let st1 := setLoad st lid op'
        if op.numWaiting - 1 = 0 then finishLoad lid bid hS hF ps st1 else st1) : State)
      lid).length =
      (finishesOf st lid).length + (if op.numWaiting - 1 = 0 then 1 else 0) := by
  simp only []
  split
  · rw [finishesOf_finishLoad_self, finishesOf_setLoad]
    simp
  · rw [finishesOf_setLoad]
    simp

/-- C2: the coordinator's wait counter starts at the number of paths; a
`beforeload` resolution that was not default-prevented changes nothing
at all (no decrement, no failure recorded); an `error` resolution and a
default-prevented `beforeload` resolution each append the path to the
failed list and decrement; a `load` (success) resolution decrements
without recording; and in every decrementing case the aggregate callback
fires exactly when the counter reaches zero. -/
theorem wait_counter_contract (st : State) (lid : Nat) (op : LoadOp) (path : String)
    (dp : Bool) (h : st.loads lid = some op) :
    (∀ paths bid args st0 st1, loadjs paths bid args st0 = .ok st1 →
      st1.loads st0.nextLoadId =
        some ⟨bid, args.hasSuccess, args.hasFail, (paths.length : Int), []⟩) ∧
    loadFileEvent lid path .blocked false st = st ∧
    (loadFileEvent lid path .error dp st).loads lid =
      some { op with pathsNotFound := op.pathsNotFound ++ [path],
                     numWaiting := op.numWaiting - 1 } ∧
    (finishesOf (loadFileEvent lid path .error dp st) lid).length =
      (finishesOf st lid).length + (if op.numWaiting - 1 = 0 then 1 else 0) ∧
    (loadFileEvent lid path .blocked true st).loads lid =
      some { op with pathsNotFound := op.pathsNotFound ++ [path],
                     numWaiting := op.numWaiting - 1 } ∧
    (finishesOf (loadFileEvent lid path .blocked true st) lid).length =
      (finishesOf st lid).length + (if op.numWaiting - 1 = 0 then 1 else 0) ∧
    (loadFileEvent lid path .success dp st).loads lid =
      some { op with numWaiting := op.numWaiting - 1 } ∧
    (finishesOf (loadFileEvent lid path .success dp st) lid).length =
      (finishesOf st lid).length + (if op.numWaiting - 1 = 0 then 1 else 0) := by
  refine ⟨fun paths bid args st0 st1 hok => loadjs_ok_loads paths bid args st0 st1 hok,
    loadFileEvent_blocked_ignored lid path st, ?_, ?_, ?_, ?_, ?_, ?_⟩
  · rw [loadFileEvent_error_eq lid path dp st op h]
    exact terminal_loads_self lid st op _ _ _ _ _
  · rw [loadFileEvent_error_eq lid path dp st op h]
    exact terminal_finishes_len lid st op _ _ _ _ _
  · rw [loadFileEvent_blocked_confirmed_eq lid path st op h]
    exact terminal_loads_self lid st op _ _ _ _ _
  · rw [loadFileEvent_blocked_confirmed_eq lid path st op h]
    exact terminal_finishes_len lid st op _ _ _ _ _
  · rw [loadFileEvent_success_eq lid path dp st op h]
    exact terminal_loads_self lid st op _ _ _ _ _
  · rw [loadFileEvent_success_eq lid path dp st op h]
    exact terminal_finishes_len lid st op _ _ _ _ _

/-- Witness for C2 at a concrete input: a two-path load; the first
(error) resolution records the failure and decrements 2 → 1 without
firing the aggregate callback, the second (success) resolution
decrements 1 → 0 and fires it. -/
theorem wait_counter_contract_witness :
    (step initState (.load ["a.js", "b.css"] none ⟨true, true⟩)).loads 0 =
      some ⟨none, true, true, 2, []⟩ ∧
    (loadFileEvent 0 "a.js" .error false
        (step initState (.load ["a.js", "b.css"] none ⟨true, true⟩))).loads 0 =
      some ⟨none, true, true, 1, ["a.js"]⟩ ∧
    (finishesOf (loadFileEvent 0 "a.js" .error false
        (step initState (.load ["a.js", "b.css"] none ⟨true, true⟩))) 0).length = 0 ∧
    (finishesOf (loadFileEvent 0 "b.css" .success false
        (loadFileEvent 0 "a.js" .error false
          (step initState (.load ["a.js", "b.css"] none ⟨true, true⟩)))) 0).length = 1 := by
  have h1 := (wait_counter_contract
    (step initState (.load ["a.js", "b.css"] none ⟨true, true⟩)) 0
    ⟨none, true, true, 2, []⟩ "a.js" false (by decide)).2.2.1
  have h2 := (wait_counter_contract
    (step initState (.load ["a.js", "b.css"] none ⟨true, true⟩)) 0
    ⟨none, true, true, 2, []⟩ "a.js" false (by decide)).2.2.2.1
  have h3 := (wait_counter_contract
    (loadFileEvent 0 "a.js" .error false
      (step initState (.load ["a.js", "b.css"] none ⟨true, true⟩))) 0
    ⟨none, true, true, 1, ["a.js"]⟩ "b.css" false (by decide)).2.2.2.2.2.2.2
  refine ⟨by decide, ?_, ?_, ?_⟩
  · exact h1
  · rw [h2]; decide
  · rw [h3]; decide

/-- C4: a first `load` call with a fresh bundle id succeeds, marks the
id used, and dispatches its paths; a second call with the same id
returns the `"LoadJS"` error with the state completely unchanged (so
nothing is dispatched and the earlier call is unaffected). -/
theorem duplicate_bundle_id (b : String) (paths : List String) (args : Args) (st : State)
    (h : st.bundleIdCache b = false) :
    loadjs paths (some b) args st = .ok (step st (.load paths (some b) args)) ∧
    (step st (.load paths (some b) args)).bundleIdCache b = true ∧
    (step st (.load paths (some b) args)).events =
      st.events ++ paths.map (Event.dispatched st.nextLoadId) ∧
    ∀ paths' args',
      loadjs paths' (some b) args' (step st (.load paths (some b) args)) = .error "LoadJS" ∧
      step (step st (.load paths (some b) args)) (.load paths' (some b) args') =
        step st (.load paths (some b) args) := by
  have hb : ¬ st.bundleIdCache b = true := by rw [h]; exact Bool.false_ne_true
  have hs : step st (.load paths (some b) args) =
      dispatchLoads paths (some b) args
        { st with bundleIdCache := fun c => if c = b then true else st.bundleIdCache c } := by
    show (match loadjs paths (some b) args st with
          | .ok st' => st'
          | .error _ => st) = _
    unfold loadjs
    simp only []
    rw [if_neg hb]
  have hmark : (step st (.load paths (some b) args)).bundleIdCache b = true := by
    rw [hs, dispatchLoads_idCache]
    simp
  refine ⟨?_, hmark, ?_, fun paths' args' => ?_⟩
  · show loadjs paths (some b) args st = _
    unfold loadjs
    simp only []
    rw [if_neg hb, hs]
  · rw [hs, dispatchLoads_eq]
  · have herr : loadjs paths' (some b) args' (step st (.load paths (some b) args)) =
        .error "LoadJS" := by
      unfold loadjs
      simp only []
      rw [if_pos hmark]
    refine ⟨herr, ?_⟩
    show (match loadjs paths' (some b) args' (step st (.load paths (some b) args)) with
          | .ok st' => st'
          | .error _ => step st (.load paths (some b) args)) = _
    rw [herr]

/-- Witness for C4 at a concrete input: loading `"b1"` once succeeds and
marks it; loading `"b1"` again raises the error and leaves the state
exactly as the first call left it. -/
theorem duplicate_bundle_id_witness :
    initState.bundleIdCache "b1" = false ∧
    (step initState (.load ["a.js"] (some "b1") ⟨true, false⟩)).bundleIdCache "b1" = true ∧
    loadjs ["c.js"] (some "b1") ⟨false, false⟩
      (step initState (.load ["a.js"] (some "b1") ⟨true, false⟩)) = .error "LoadJS" ∧
    step (step initState (.load ["a.js"] (some "b1") ⟨true, false⟩))
        (.load ["c.js"] (some "b1") ⟨false, false⟩) =
      step initState (.load ["a.js"] (some "b1") ⟨true, false⟩) :=
  ⟨by decide,
    (duplicate_bundle_id "b1" ["a.js"] ⟨true, false⟩ initState (by decide)).2.1,
    ((duplicate_bundle_id "b1" ["a.js"] ⟨true, false⟩ initState (by decide)).2.2.2
      ["c.js"] ⟨false, false⟩).1,
    ((duplicate_bundle_id "b1" ["a.js"] ⟨true, false⟩ initState (by decide)).2.2.2
      ["c.js"] ⟨false, false⟩).2⟩

/-! ### Delivering a full trace of file-resolution events to one load -/

/-- One externally delivered resolution event for a file of a load
operation: the path, the event-type letter, and whether the event was
default-prevented. -/
structure FileEv where
  path : String
  result : FileResult
  defaultPrevented : Bool
deriving DecidableEq, Repr

/-- A delivery is terminal for the coordinator unless it is a
`beforeload` that was not default-prevented (the one case the handler
ignores). -/
def FileEv.terminal (ev : FileEv) : Bool :=
  !(ev.result == .blocked && !ev.defaultPrevented)

/-- A delivery records its path as failed when it is an `error` or a
default-prevented `beforeload`. -/
def FileEv.failed (ev : FileEv) : Bool :=
  ev.result == .error || (ev.result == .blocked && ev.defaultPrevented)

def terminals (evs : List FileEv) : List FileEv :=
  evs.filter FileEv.terminal

def failedPathsOf (evs : List FileEv) : List String :=
  (evs.filter FileEv.failed).map FileEv.path

def deliverAll (lid : Nat) (evs : List FileEv) (st : State) : State :=
  evs.foldl (fun s ev => loadFileEvent lid ev.path ev.result ev.defaultPrevented s) st

lemma not_terminal_elim (ev : FileEv) (h : ev.terminal = false) :
    ev.result = .blocked ∧ ev.defaultPrevented = false := by
  obtain ⟨p, r, dp⟩ := ev
  cases r <;> cases dp <;> simp_all [FileEv.terminal]

lemma not_terminal_not_failed (ev : FileEv) (h : ev.terminal = false) :
    ev.failed = false := by
  obtain ⟨hr, hdp⟩ := not_terminal_elim ev h
  obtain ⟨p, r, dp⟩ := ev
  simp only [] at hr hdp
  subst hr hdp
  rfl

lemma setLoad_setLoad (st : State) (lid : Nat) (a b : LoadOp) :
    setLoad (setLoad st lid a) lid b = setLoad st lid b := by
  ext1
  all_goals try rfl
  funext i
  by_cases hi : i = lid <;> simp [setLoad_loads, hi]

lemma deliverAll_nonterminal (lid : Nat) (evs : List FileEv) (st : State)
    (hall : ∀ ev ∈ evs, ev.terminal = false) :
    deliverAll lid evs st = st := by
  induction evs generalizing st with
  | nil => rfl
  | cons ev rest ih =>
    obtain ⟨hr, hdp⟩ := not_terminal_elim ev (hall ev (List.mem_cons_self ev rest))
    show deliverAll lid rest (loadFileEvent lid ev.path ev.result ev.defaultPrevented st) = st
    rw [hr, hdp, loadFileEvent_blocked_ignored]
    exact ih st (fun e he => hall e (List.mem_cons_of_mem ev he))

/-- Uniform shape of a terminal delivery. -/
lemma loadFileEvent_terminal_eq (lid : Nat) (ev : FileEv) (st : State) (op : LoadOp)
    (h : st.loads lid = some op) (ht : ev.terminal = true) :
    loadFileEvent lid ev.path ev.result ev.defaultPrevented st =
      (let op1 : LoadOp :=
        { op with
          pathsNotFound := op.pathsNotFound ++ (if ev.failed then [ev.path] else []),
          numWaiting := op.numWaiting - 1 }
       let st1 := setLoad st lid op1
       if op.numWaiting - 1 = 0 then
         finishLoad lid op.bundleId op.hasSuccess op.hasFail op1.pathsNotFound st1
       else st1) := by
  obtain ⟨p, r, dp⟩ := ev
  cases r with
  | success =>
    rw [loadFileEvent_success_eq lid p dp st op h]
    have hf : FileEv.failed ⟨p, .success, dp⟩ = false := by cases dp <;> rfl
    simp [hf]
  | error =>
    rw [loadFileEvent_error_eq lid p dp st op h]
    have hf : FileEv.failed ⟨p, .error, dp⟩ = true := by cases dp <;> rfl
    simp [hf]
  | blocked =>
    cases dp with
    | false => simp [FileEv.terminal] at ht
    | true =>
      rw [loadFileEvent_blocked_confirmed_eq lid p st op h]
      have hf : FileEv.failed ⟨p, .blocked, true⟩ = true := rfl
      simp [hf]

/-- Delivering a trace whose terminal deliveries exactly exhaust the
wait counter drives the operation to counter zero with the failed paths
accumulated in delivery order, and ends in the aggregate `finishLoad`
applied to that final coordinator state. -/
lemma deliverAll_spec (evs : List FileEv) (lid : Nat) (st : State) (op : LoadOp)
    (h : st.loads lid = some op)
    (hcnt : op.numWaiting = ((terminals evs).length : Int))
    (hpos : 0 < (terminals evs).length) :
    deliverAll lid evs st =
      finishLoad lid op.bundleId op.hasSuccess op.hasFail
        (op.pathsNotFound ++ failedPathsOf evs)
        (setLoad st lid
          { op with numWaiting := 0,
                    pathsNotFound := op.pathsNotFound ++ failedPathsOf evs }) := by
  induction evs generalizing st op with
  | nil => simp [terminals] at hpos
  | cons ev rest ih =>
    cases ht : ev.terminal with
    | false =>
      obtain ⟨hr, hdp⟩ := not_terminal_elim ev ht
      have hterm : terminals (ev :: rest) = terminals rest := by
        simp [terminals, List.filter_cons, ht]
      have hfail : failedPathsOf (ev :: rest) = failedPathsOf rest := by
        simp [failedPathsOf, List.filter_cons, not_terminal_not_failed ev ht]
      rw [hterm] at hcnt hpos
      have hstep : deliverAll lid (ev :: rest) st = deliverAll lid rest st := by
        show deliverAll lid rest (loadFileEvent lid ev.path ev.result ev.defaultPrevented st)
            = _
        rw [hr, hdp, loadFileEvent_blocked_ignored]
      rw [hstep, hfail]
      exact ih st op h hcnt hpos
    | true =>
      have hterm : terminals (ev :: rest) = ev :: terminals rest := by
        simp [terminals, List.filter_cons, ht]
      have hfail : failedPathsOf (ev :: rest) =
          (if ev.failed then [ev.path] else []) ++ failedPathsOf rest := by
        cases hf : ev.failed <;>
          simp [failedPathsOf, List.filter_cons, hf]
      have hstep : deliverAll lid (ev :: rest) st =
          deliverAll lid rest
            (loadFileEvent lid ev.path ev.result ev.defaultPrevented st) := rfl
      rw [hstep, loadFileEvent_terminal_eq lid ev st op h ht]
      simp only []
      set op1 : LoadOp :=
        { op with
          pathsNotFound := op.pathsNotFound ++ (if ev.failed then [ev.path] else []),
          numWaiting := op.numWaiting - 1 } with hop1
      by_cases hz : op.numWaiting - 1 = 0
      · -- this was the final terminal delivery
        have hrest : terminals rest = [] := by
          rw [hterm] at hcnt
        -- op.numWaiting = 1 + |terminals rest| and op.numWaiting - 1 = 0
          have : ((terminals rest).length : Int) = 0 := by
            rw [List.length_cons] at hcnt
            omega
          have := Int.ofNat_injective (by exact_mod_cast this : ((terminals rest).length : Int) = ((0 : Nat) : Int))
          exact List.length_eq_zero.mp this
        have hallnt : ∀ e ∈ rest, e.terminal = false := by
          intro e he
          by_contra hc
          have : e ∈ terminals rest :=
            List.mem_filter.mpr ⟨he, by revert hc; cases e.terminal <;> simp⟩
          rw [hrest] at this
          exact absurd this (List.not_mem_nil e)
        rw [if_pos hz, deliverAll_nonterminal lid rest _ hallnt]
        have hfail2 : failedPathsOf rest = [] := by
          have : ∀ e ∈ rest, e.failed = false := fun e he =>
            not_terminal_not_failed e (hallnt e he)
          simp [failedPathsOf, List.filter_eq_nil_iff]
          intro e he
          simp [this e he]
        rw [hfail, hfail2, List.append_nil]
        have hzero : op.numWaiting - 1 = (0 : Int) := hz
        show finishLoad lid op.bundleId op.hasSuccess op.hasFail op1.pathsNotFound
            (setLoad st lid op1) = _
        rw [hop1]
        congr 2
        simp [hzero]
      · -- more terminal deliveries remain
        rw [if_neg hz]
        have h1 : (setLoad st lid op1).loads lid = some op1 := by
          rw [setLoad_loads, if_pos rfl]
        have hcnt1 : op1.numWaiting = ((terminals rest).length : Int) := by
          rw [hterm, List.length_cons] at hcnt
          show op.numWaiting - 1 = _
          push_cast at hcnt ⊢
          omega
        have hpos1 : 0 < (terminals rest).length := by
          rcases Nat.eq_zero_or_pos (terminals rest).length with h0 | h0
          · exfalso
            apply hz
            rw [hcnt, hterm, List.length_cons, h0]
            rfl
          · exact h0
        rw [ih (setLoad st lid op1) op1 h1 hcnt1 hpos1]
        rw [setLoad_setLoad, hfail, hop1]
        simp only [List.append_assoc]

/-! ### Event-order lemmas for finishing a load -/

lemma runWaiterFn_events_extends (st : State) (w : Nat) (b : String) (ps : List String) :
    st.events <+: (runWaiterFn st w b ps).events := by
  unfold runWaiterFn
  cases st.waiters w with
  | none => exact List.prefix_rfl
  | some wt =>
    simp only []
    split
    · rw [logEvent_events, setWaiter_events]
      exact ⟨_, rfl⟩
    · rw [setWaiter_events]

lemma foldl_runWaiterFn_events_extends (q : List Nat) (st : State) (b : String)
    (ps : List String) :
    st.events <+: (q.foldl (fun s w => runWaiterFn s w b ps) st).events := by
  induction q generalizing st with
  | nil => exact List.prefix_rfl
  | cons w rest ih =>
    rw [List.foldl_cons]
    exact (runWaiterFn_events_extends st w b ps).trans (ih _)

lemma publish_events_take (b : String) (ps : List String) (st : State) (hb : b ≠ "") :
    (publish b ps st).events.take (st.events.length + 1) =
      st.events ++ [Event.published b ps] := by
  rw [publish_eq_foldl b ps st hb, setQueue_events]
  have hpre : (st.events ++ [Event.published b ps]) <+:
      ((st.bundleCallbackQueue b).foldl (fun s w => runWaiterFn s w b ps)
        (setCache (logEvent st (.published b ps)) b ps)).events := by
    have h0 : (setCache (logEvent st (.published b ps)) b ps).events =
        st.events ++ [Event.published b ps] := by
      rw [setCache_events, logEvent_events]
    rw [← h0]
    exact foldl_runWaiterFn_events_extends _ _ _ _
  have hlen : (st.events ++ [Event.published b ps]).length = st.events.length + 1 := by
    simp
  rw [← hlen]
  exact (List.prefix_iff_eq_take.mp hpre).symm

lemma finishLoad_none_events (lid : Nat) (hS hF : Bool) (ps : List String) (st : State) :
    (finishLoad lid none hS hF ps st).events =
      st.events ++
        [if ps.length ≠ 0 then .failCb lid ps (if hF then .user else .devnull)
         else .successCb lid (if hS then .user else .devnull)] := by
  unfold finishLoad
  have hpub : (none : Option String).getD "" = "" := rfl
  rw [hpub]
  split <;> rw [publish_empty_id, logEvent_events]

lemma finishLoad_some_events_take (lid : Nat) (b : String) (hS hF : Bool) (ps : List String)
    (st : State) (hb : b ≠ "") :
    (finishLoad lid (some b) hS hF ps st).events.take (st.events.length + 2) =
      st.events ++
        [if ps.length ≠ 0 then .failCb lid ps (if hF then .user else .devnull)
         else .successCb lid (if hS then .user else .devnull),
         Event.published b ps] := by
  unfold finishLoad
  have hpub : (some b).getD "" = b := rfl
  rw [hpub]
  split
  · rw [show st.events.length + 2 =
        (logEvent st (.failCb lid ps (if hF then .user else .devnull))).events.length + 1
        by simp [logEvent_events]]
    rw [publish_events_take b ps _ hb, logEvent_events, List.append_assoc]
    rfl
  · rw [show st.events.length + 2 =
        (logEvent st (.successCb lid (if hS then .user else .devnull))).events.length + 1
        by simp [logEvent_events]]
    rw [publish_events_take b ps _ hb, logEvent_events, List.append_assoc]
    rfl

lemma filter_isFinish_dispatched (l lid : Nat) (paths : List String) :
    (paths.map (Event.dispatched lid)).filter (isFinish l) = [] := by
  induction paths with
  | nil => rfl
  | cons p rest ih => simp [List.filter_cons, ih]

lemma loadjs_ok_events (paths : List String) (bid : Option String) (args : Args)
    (st0 st1 : State) (h : loadjs paths bid args st0 = .ok st1) :
    st1.events = st0.events ++ paths.map (Event.dispatched st0.nextLoadId) := by
  unfold loadjs at h
  cases bid with
  | none =>
    simp only [Except.ok.injEq] at h
    rw [← h, dispatchLoads_eq]
  | some b =>
    simp only [] at h
    by_cases hb : st0.bundleIdCache b
    · rw [if_pos hb] at h
      exact absurd h (by simp)
    · rw [if_neg hb] at h
      simp only [Except.ok.injEq] at h
      rw [← h, dispatchLoads_eq]

lemma finishesOf_loadjs_ok (paths : List String) (bid : Option String) (args : Args)
    (st0 st1 : State) (l : Nat) (h : loadjs paths bid args st0 = .ok st1) :
    finishesOf st1 l = finishesOf st0 l := by
  rw [finishesOf_eq, loadjs_ok_events paths bid args st0 st1 h, List.filter_append,
    filter_isFinish_dispatched, List.append_nil, ← finishesOf_eq]

/-- C3: once every dispatched unit of a load has resolved terminally,
exactly one of the success / fail aggregate callbacks fires — fail with
the accumulated failed paths when the list is non-empty, success when it
is empty, and with the `devnull` no-op substituted when the respective
user callback is absent — and it fires before the bundle's result is
published to the registry (for an anonymous load nothing at all is
published). -/
theorem load_settlement (paths : List String) (bid : Option String) (args : Args)
    (st0 st1 : State) (evs : List FileEv)
    (hok : loadjs paths bid args st0 = .ok st1)
    (hperm : List.Perm ((terminals evs).map FileEv.path) paths)
    (hne : paths ≠ []) :
    finishesOf (deliverAll st0.nextLoadId evs st1) st0.nextLoadId =
      finishesOf st0 st0.nextLoadId ++
        [if (failedPathsOf evs).length ≠ 0 then
           .failCb st0.nextLoadId (failedPathsOf evs)
             (if args.hasFail then .user else .devnull)
         else .successCb st0.nextLoadId (if args.hasSuccess then .user else .devnull)] ∧
    (bid = none →
      (deliverAll st0.nextLoadId evs st1).events =
        st1.events ++
          [if (failedPathsOf evs).length ≠ 0 then
             .failCb st0.nextLoadId (failedPathsOf evs)
               (if args.hasFail then .user else .devnull)
           else .successCb st0.nextLoadId (if args.hasSuccess then .user else .devnull)]) ∧
    (∀ b, bid = some b → b ≠ "" →
      (deliverAll st0.nextLoadId evs st1).events.take (st1.events.length + 2) =
        st1.events ++
          [if (failedPathsOf evs).length ≠ 0 then
             .failCb st0.nextLoadId (failedPathsOf evs)
               (if args.hasFail then .user else .devnull)
           else .successCb st0.nextLoadId (if args.hasSuccess then .user else .devnull),
           Event.published b (failedPathsOf evs)]) := by
  have hloads := loadjs_ok_loads paths bid args st0 st1 hok
  have hlen : (terminals evs).length = paths.length := by
    rw [← hperm.length_eq, List.length_map]
  have hcnt : (⟨bid, args.hasSuccess, args.hasFail, (paths.length : Int), []⟩ :
      LoadOp).numWaiting = ((terminals evs).length : Int) := by
    rw [hlen]
  have hpos : 0 < (terminals evs).length := by
    rw [hlen]
    exact List.length_pos.mpr hne
  have hd := deliverAll_spec evs st0.nextLoadId st1 _ hloads hcnt hpos
  rw [List.nil_append] at hd
  refine ⟨?_, ?_, ?_⟩
  · rw [hd, finishesOf_finishLoad_self, finishesOf_setLoad,
      finishesOf_loadjs_ok paths bid args st0 st1 _ hok]
  · intro hnone
    subst hnone
    rw [hd, finishLoad_none_events, setLoad_events]
  · intro b hsome hb
    subst hsome
    rw [hd]
    have := finishLoad_some_events_take st0.nextLoadId b args.hasSuccess args.hasFail
      (failedPathsOf evs)
      (setLoad st1 st0.nextLoadId
        { bundleId := some b, hasSuccess := args.hasSuccess, hasFail := args.hasFail,
          numWaiting := 0, pathsNotFound := failedPathsOf evs }) hb
    rw [setLoad_events] at this
    exact this

/-- Witness for C3 at a concrete input: a named two-path load where one
path errors; the fail callback fires once, with the failed path, and
immediately before the bundle publish. -/
theorem load_settlement_witness :
    loadjs ["a.js", "b.js"] (some "b1") ⟨true, true⟩ initState =
      .ok (step initState (.load ["a.js", "b.js"] (some "b1") ⟨true, true⟩)) ∧
    finishesOf
        (deliverAll initState.nextLoadId
          [⟨"a.js", .success, false⟩, ⟨"b.js", .error, false⟩]
          (step initState (.load ["a.js", "b.js"] (some "b1") ⟨true, true⟩)))
        initState.nextLoadId =
      [.failCb 0 ["b.js"] .user] ∧
    (deliverAll initState.nextLoadId
        [⟨"a.js", .success, false⟩, ⟨"b.js", .error, false⟩]
        (step initState (.load ["a.js", "b.js"] (some "b1") ⟨true, true⟩))).events.take
        ((step initState
          (.load ["a.js", "b.js"] (some "b1") ⟨true, true⟩)).events.length + 2) =
      [.dispatched 0 "a.js", .dispatched 0 "b.js",
       .failCb 0 ["b.js"] .user, .published "b1" ["b.js"]] := by
  have h := load_settlement ["a.js", "b.js"] (some "b1") ⟨true, true⟩ initState
    (step initState (.load ["a.js", "b.js"] (some "b1") ⟨true, true⟩))
    [⟨"a.js", .success, false⟩, ⟨"b.js", .error, false⟩]
    (by rfl) (by decide) (by decide)
  refine ⟨rfl, ?_, ?_⟩
  · rw [h.1]
    rfl
  · rw [h.2.2 "b1" rfl (by decide)]
    rfl

lemma finishLoad_none_frame (lid : Nat) (hS hF : Bool) (ps : List String) (st : State) :
    (finishLoad lid none hS hF ps st).bundleIdCache = st.bundleIdCache ∧
    (finishLoad lid none hS hF ps st).bundleResultCache = st.bundleResultCache ∧
    (finishLoad lid none hS hF ps st).bundleCallbackQueue = st.bundleCallbackQueue ∧
    (finishLoad lid none hS hF ps st).waiters = st.waiters := by
  unfold finishLoad
  rw [show (none : Option String).getD "" = "" from rfl]
  split <;> rw [publish_empty_id] <;> exact ⟨rfl, rfl, rfl, rfl⟩

lemma loadjs_none_ok (paths : List String) (args : Args) (st0 st1 : State)
    (h : loadjs paths none args st0 = .ok st1) :
    st1 = dispatchLoads paths none args st0 := by
  unfold loadjs at h
  simp only [Except.ok.injEq] at h
  exact h.symm

/-- C8: an anonymous (no bundle id) load whose paths all resolve
successfully fires the success callback, and the three registry
structures — the used-bundle-id set, the result cache and the pending
callback queues — as well as the waiter table are left completely
unchanged by the whole call. -/
theorem anonymous_success_frame (paths : List String) (args : Args) (st0 st1 : State)
    (evs : List FileEv)
    (hok : loadjs paths none args st0 = .ok st1)
    (hperm : List.Perm ((terminals evs).map FileEv.path) paths)
    (hne : paths ≠ [])
    (hall : ∀ ev ∈ evs, ev.failed = false) :
    finishesOf (deliverAll st0.nextLoadId evs st1) st0.nextLoadId =
      finishesOf st0 st0.nextLoadId ++
        [.successCb st0.nextLoadId (if args.hasSuccess then .user else .devnull)] ∧
    (deliverAll st0.nextLoadId evs st1).bundleIdCache = st0.bundleIdCache ∧
    (deliverAll st0.nextLoadId evs st1).bundleResultCache = st0.bundleResultCache ∧
    (deliverAll st0.nextLoadId evs st1).bundleCallbackQueue = st0.bundleCallbackQueue ∧
    (deliverAll st0.nextLoadId evs st1).waiters = st0.waiters := by
  have hfail0 : failedPathsOf evs = [] := by
    rw [failedPathsOf, List.map_eq_nil_iff, List.filter_eq_nil_iff]
    intro ev hev
    simp [hall ev hev]
  have hloads := loadjs_ok_loads paths none args st0 st1 hok
  have hlen : (terminals evs).length = paths.length := by
    rw [← hperm.length_eq, List.length_map]
  have hcnt : (⟨none, args.hasSuccess, args.hasFail, (paths.length : Int), []⟩ :
      LoadOp).numWaiting = ((terminals evs).length : Int) := by
    rw [hlen]
  have hpos : 0 < (terminals evs).length := by
    rw [hlen]
    exact List.length_pos.mpr hne
  have hd := deliverAll_spec evs st0.nextLoadId st1 _ hloads hcnt hpos
  rw [List.nil_append, hfail0] at hd
  have hframe := finishLoad_none_frame st0.nextLoadId args.hasSuccess args.hasFail []
    (setLoad st1 st0.nextLoadId
      { bundleId := none, hasSuccess := args.hasSuccess, hasFail := args.hasFail,
        numWaiting := 0, pathsNotFound := [] })
  have h1 : st1 = dispatchLoads paths none args st0 := loadjs_none_ok paths args st0 st1 hok
  have hreg : st1.bundleIdCache = st0.bundleIdCache ∧
      st1.bundleResultCache = st0.bundleResultCache ∧
      st1.bundleCallbackQueue = st0.bundleCallbackQueue ∧
      st1.waiters = st0.waiters := by
    rw [h1, dispatchLoads_eq]
    exact ⟨rfl, rfl, rfl, rfl⟩
  refine ⟨?_, ?_, ?_, ?_, ?_⟩
  · rw [hd, finishesOf_finishLoad_self, finishesOf_setLoad,
      finishesOf_loadjs_ok paths none args st0 st1 _ hok]
    simp
  · rw [hd, hframe.1, setLoad_idCache, hreg.1]
  · rw [hd, hframe.2.1, setLoad_cache, hreg.2.1]
  · rw [hd, hframe.2.2.1, setLoad_queue, hreg.2.2.1]
  · rw [hd, hframe.2.2.2, setLoad_waiters, hreg.2.2.2]

/-- Witness for C8 at a concrete input: a successful anonymous
single-path load fires success and leaves all registry maps at their
initial values. -/
theorem anonymous_success_frame_witness :
    loadjs ["a.js"] none ⟨true, false⟩ initState =
      .ok (step initState (.load ["a.js"] none ⟨true, false⟩)) ∧
    finishesOf
        (deliverAll initState.nextLoadId [⟨"a.js", .success, false⟩]
          (step initState (.load ["a.js"] none ⟨true, false⟩)))
        initState.nextLoadId =
      [.successCb 0 .user] ∧
    (deliverAll initState.nextLoadId [⟨"a.js", .success, false⟩]
        (step initState (.load ["a.js"] none ⟨true, false⟩))).bundleIdCache "b" = false ∧
    (deliverAll initState.nextLoadId [⟨"a.js", .success, false⟩]
        (step initState (.load ["a.js"] none ⟨true, false⟩))).bundleResultCache "b" = none ∧
    (deliverAll initState.nextLoadId [⟨"a.js", .success, false⟩]
        (step initState (.load ["a.js"] none ⟨true, false⟩))).bundleCallbackQueue "b" = [] := by
  have h := anonymous_success_frame ["a.js"] ⟨true, false⟩ initState
    (step initState (.load ["a.js"] none ⟨true, false⟩))
    [⟨"a.js", .success, false⟩] (by rfl) (by decide) (by decide)
    (by decide)
  refine ⟨rfl, ?_, ?_, ?_, ?_⟩
  · rw [h.1]
    rfl
  · rw [h.2.1]
    rfl
  · rw [h.2.2.1]
    rfl
  · rw [h.2.2.2.1]
    rfl

/-! ### A waiter that sits in no queue never fires again -/

/-- A waiter id that has already been allocated and sits in no pending
queue: nothing in the system can ever invoke its handler again. -/
def Dormant (st : State) (wid : Nat) : Prop :=
  wid < st.nextWaiterId ∧ ∀ b, wid ∉ st.bundleCallbackQueue b

lemma flatMap_callHit_dispatched (wid lid : Nat) (paths : List String) :
    (paths.map (Event.dispatched lid)).flatMap (callHit wid) = [] := by
  induction paths with
  | nil => rfl
  | cons p rest ih => simp [ih]

lemma callsOf_dispatchLoads (paths : List String) (bid : Option String) (args : Args)
    (st : State) (wid : Nat) :
    callsOf (dispatchLoads paths bid args st) wid = callsOf st wid := by
  rw [callsOf_eq, dispatchLoads_eq]
  show (st.events ++ paths.map (Event.dispatched st.nextLoadId)).flatMap (callHit wid) = _
  rw [List.flatMap_append, flatMap_callHit_dispatched, List.append_nil, ← callsOf_eq]

lemma loadjs_ok_frames (paths : List String) (bid : Option String) (args : Args)
    (st0 st1 : State) (h : loadjs paths bid args st0 = .ok st1) :
    st1.bundleCallbackQueue = st0.bundleCallbackQueue ∧
    st1.nextWaiterId = st0.nextWaiterId ∧
    st1.waiters = st0.waiters ∧
    st1.bundleResultCache = st0.bundleResultCache ∧
    (∀ wid, callsOf st1 wid = callsOf st0 wid) := by
  unfold loadjs at h
  cases bid with
  | none =>
    simp only [Except.ok.injEq] at h
    subst h
    exact ⟨by rw [dispatchLoads_eq], by rw [dispatchLoads_eq], by rw [dispatchLoads_eq],
      by rw [dispatchLoads_eq], fun wid => callsOf_dispatchLoads _ _ _ _ _⟩
  | some b =>
    simp only [] at h
    by_cases hb : st0.bundleIdCache b
    · rw [if_pos hb] at h
      exact absurd h (by simp)
    · rw [if_neg hb] at h
      simp only [Except.ok.injEq] at h
      subst h
      refine ⟨by rw [dispatchLoads_eq], by rw [dispatchLoads_eq], by rw [dispatchLoads_eq],
        by rw [dispatchLoads_eq], fun wid => ?_⟩
      rw [callsOf_dispatchLoads]
      rw [callsOf_eq, callsOf_eq]

lemma publish_notqueued (b : String) (ps : List String) (st : State) (wid : Nat)
    (h : ∀ c, wid ∉ st.bundleCallbackQueue c) :
    ∀ c, wid ∉ (publish b ps st).bundleCallbackQueue c := by
  intro c
  by_cases hb : b = ""
  · subst hb
    rw [publish_empty_id]
    exact h c
  · by_cases hc : c = b
    · subst hc
      rw [publish_queue_self _ _ _ hb]
      exact List.not_mem_nil wid
    · rw [publish_queue_ne _ _ _ _ hc]
      exact h c

lemma finishLoad_dormant (lid : Nat) (bid : Option String) (hS hF : Bool) (ps : List String)
    (st : State) (wid : Nat) (hq : ∀ c, wid ∉ st.bundleCallbackQueue c) :
    callsOf (finishLoad lid bid hS hF ps st) wid = callsOf st wid ∧
    (∀ c, wid ∉ (finishLoad lid bid hS hF ps st).bundleCallbackQueue c) ∧
    (finishLoad lid bid hS hF ps st).nextWaiterId = st.nextWaiterId := by
  have key : ∀ e : Event, callHit wid e = [] →
      callsOf (publish (bid.getD "") ps (logEvent st e)) wid = callsOf st wid ∧
      (∀ c, wid ∉ (publish (bid.getD "") ps (logEvent st e)).bundleCallbackQueue c) ∧
      (publish (bid.getD "") ps (logEvent st e)).nextWaiterId = st.nextWaiterId := by
    intro e he
    refine ⟨?_, publish_notqueued _ _ _ _ (fun c => hq c), ?_⟩
    · rw [callsOf_publish_not_mem (bid.getD "") ps (logEvent st e) wid (hq _),
        callsOf_logEvent, he, List.append_nil]
    · rw [publish_nextWaiterId, logEvent_nextWaiterId]
  unfold finishLoad
  split
  · exact key _ rfl
  · exact key _ rfl

lemma loadFileEvent_dormant (lid : Nat) (p : String) (r : FileResult) (dp : Bool)
    (st : State) (wid : Nat) (hq : ∀ c, wid ∉ st.bundleCallbackQueue c) :
    callsOf (loadFileEvent lid p r dp st) wid = callsOf st wid ∧
    (∀ c, wid ∉ (loadFileEvent lid p r dp st).bundleCallbackQueue c) ∧
    (loadFileEvent lid p r dp st).nextWaiterId = st.nextWaiterId := by
  unfold loadFileEvent
  cases st.loads lid with
  | none => exact ⟨rfl, hq, rfl⟩
  | some op =>
    simp only []
    split
    · exact ⟨rfl, hq, rfl⟩
    · split
      · refine finishLoad_dormant _ _ _ _ _ _ wid (fun c => ?_)
        rw [setLoad_queue]
        exact hq c
      · refine ⟨callsOf_setLoad _ _ _ _, fun c => ?_, rfl⟩
        rw [setLoad_queue]
        exact hq c

lemma subscribeLoop_other (wid' : Nat) (rev : List String) (st : State) (wid : Nat)
    (hne : wid ≠ wid') :
    callsOf (subscribeLoop wid' rev st) wid = callsOf st wid ∧
    (∀ b, wid ∈ (subscribeLoop wid' rev st).bundleCallbackQueue b ↔
      wid ∈ st.bundleCallbackQueue b) ∧
    (subscribeLoop wid' rev st).nextWaiterId = st.nextWaiterId := by
  induction rev generalizing st with
  | nil => exact ⟨rfl, fun b => Iff.rfl, rfl⟩
  | cons b rest ih =>
    rw [subscribeLoop]
    cases st.bundleResultCache b with
    | some r =>
      simp only []
      obtain ⟨h1, h2, h3⟩ := ih (runWaiterFn st wid' b r)
      refine ⟨?_, fun c => ?_, ?_⟩
      · rw [h1, callsOf_runWaiterFn_ne _ _ _ _ _ (fun he => hne he.symm)]
      · rw [h2 c, runWaiterFn_queue]
      · rw [h3, runWaiterFn_nextWaiterId]
    | none =>
      simp only []
      obtain ⟨h1, h2, h3⟩ := ih (pushQueue st b wid')
      refine ⟨?_, fun c => ?_, ?_⟩
      · rw [h1]
        unfold pushQueue
        rw [callsOf_eq, setQueue_events, ← callsOf_eq]
      · rw [h2 c]
        unfold pushQueue
        rw [setQueue_queue]
        by_cases hc : c = b
        · rw [if_pos hc, List.mem_append, hc]
          simp [hne]
        · rw [if_neg hc]
      · rw [h3]
        rfl

lemma subscribe_other (ids : List String) (st : State) (wid : Nat)
    (hlt : wid < st.nextWaiterId) :
    callsOf (subscribe ids st) wid = callsOf st wid ∧
    (∀ b, wid ∈ (subscribe ids st).bundleCallbackQueue b ↔
      wid ∈ st.bundleCallbackQueue b) := by
  unfold subscribe
  obtain ⟨h1, h2, _⟩ := subscribeLoop_other st.nextWaiterId ids.reverse
    { st with
      waiters := fun i =>
        if i = st.nextWaiterId then some ⟨[], (ids.length : Int)⟩ else st.waiters i
      nextWaiterId := st.nextWaiterId + 1 } wid (Nat.ne_of_lt hlt)
  refine ⟨?_, fun b => ?_⟩
  · rw [h1]
    exact rfl
  · rw [h2 b]

lemma step_dormant (st : State) (wid : Nat) (a : Action) (h : Dormant st wid) :
    Dormant (step st a) wid ∧ callsOf (step st a) wid = callsOf st wid := by
  obtain ⟨hlt, hq⟩ := h
  cases a with
  | ready deps =>
    obtain ⟨h1, h2⟩ := subscribe_other deps st wid hlt
    refine ⟨⟨?_, fun b hb => hq b ((h2 b).mp hb)⟩, h1⟩
    show wid < (subscribe deps st).nextWaiterId
    rw [subscribe_nextWaiterId]
    exact Nat.lt_succ_of_lt hlt
  | load paths bid args =>
    show Dormant (match loadjs paths bid args st with
        | .ok st' => st' | .error _ => st) wid ∧
      callsOf (match loadjs paths bid args st with
        | .ok st' => st' | .error _ => st) wid = callsOf st wid
    cases hl : loadjs paths bid args st with
    | ok st1 =>
      obtain ⟨hf1, hf2, _, _, hf5⟩ := loadjs_ok_frames paths bid args st st1 hl
      exact ⟨⟨by rw [hf2]; exact hlt, by rw [hf1]; exact hq⟩, hf5 wid⟩
    | error e => exact ⟨⟨hlt, hq⟩, rfl⟩
  | doneA b =>
    refine ⟨⟨?_, publish_notqueued b [] st wid hq⟩,
      callsOf_publish_not_mem b [] st wid (hq b)⟩
    show wid < (publish b [] st).nextWaiterId
    rw [publish_nextWaiterId]
    exact hlt
  | fileEvent lid p r dp =>
    obtain ⟨h1, h2, h3⟩ := loadFileEvent_dormant lid p r dp st wid hq
    show Dormant (loadFileEvent lid p r dp st) wid ∧
      callsOf (loadFileEvent lid p r dp st) wid = callsOf st wid
    exact ⟨⟨by rw [h3]; exact hlt, h2⟩, h1⟩
  | publishA b ps =>
    refine ⟨⟨?_, publish_notqueued b ps st wid hq⟩,
      callsOf_publish_not_mem b ps st wid (hq b)⟩
    show wid < (publish b ps st).nextWaiterId
    rw [publish_nextWaiterId]
    exact hlt

lemma run_dormant (acts : List Action) (st : State) (wid : Nat) (h : Dormant st wid) :
    Dormant (run st acts) wid ∧ callsOf (run st acts) wid = callsOf st wid := by
  induction acts generalizing st with
  | nil => exact ⟨h, rfl⟩
  | cons a rest ih =>
    obtain ⟨h1, h2⟩ := step_dormant st wid a h
    obtain ⟨h3, h4⟩ := ih (step st a) h1
    exact ⟨h3, by rw [show run st (a :: rest) = run (step st a) rest from rfl, h4, h2]⟩

/-- C9: a `ready`/`subscribe` call with an empty list of bundle ids does
nothing observable — the registry maps, event log and load table are
untouched; the new waiter is allocated with a wait count of zero but,
because the count is only tested after a per-id decrement and no id ever
decrements it, its callback is never invoked, under this call or any
sequence of later API calls and file events. -/
theorem empty_ready_silent (st : State) (acts : List Action)
    (hfresh : ∀ b, st.nextWaiterId ∉ st.bundleCallbackQueue b) :
    (subscribe [] st).bundleIdCache = st.bundleIdCache ∧
    (subscribe [] st).bundleResultCache = st.bundleResultCache ∧
    (subscribe [] st).bundleCallbackQueue = st.bundleCallbackQueue ∧
    (subscribe [] st).loads = st.loads ∧
    (subscribe [] st).events = st.events ∧
    (subscribe [] st).waiters st.nextWaiterId = some ⟨[], 0⟩ ∧
    callsOf (run (subscribe [] st) acts) st.nextWaiterId =
      callsOf st st.nextWaiterId := by
  have hsub : subscribe [] st =
      { st with
        waiters := fun i =>
          if i = st.nextWaiterId then some ⟨[], (0 : Int)⟩ else st.waiters i
        nextWaiterId := st.nextWaiterId + 1 } := rfl
  have hdorm : Dormant (subscribe [] st) st.nextWaiterId := by
    rw [hsub]
    exact ⟨Nat.lt_succ_self _, hfresh⟩
  have hrun := (run_dormant acts (subscribe [] st) st.nextWaiterId hdorm).2
  rw [hsub] at hrun ⊢
  refine ⟨rfl, rfl, rfl, rfl, rfl, by simp, ?_⟩
  rw [hrun]
  exact rfl

/-- Witness for C9 at a concrete input: an empty `ready` on the initial
state followed by publishes, a load, a file event and another ready
never invokes waiter 0's callback. -/
theorem empty_ready_silent_witness :
    (subscribe [] initState).events = initState.events ∧
    (subscribe [] initState).waiters initState.nextWaiterId = some ⟨[], 0⟩ ∧
    callsOf
        (run (subscribe [] initState)
          [.doneA "a", .publishA "b" ["q"], .ready ["b"],
           .load ["x.js"] (some "b2") ⟨true, true⟩,
           .fileEvent 1 "x.js" .error false])
        initState.nextWaiterId =
      callsOf initState initState.nextWaiterId := by
  have h := empty_ready_silent initState
    [.doneA "a", .publishA "b" ["q"], .ready ["b"],
     .load ["x.js"] (some "b2") ⟨true, true⟩,
     .fileEvent 1 "x.js" .error false]
    (fun b => List.not_mem_nil initState.nextWaiterId)
  exact ⟨h.2.2.2.2.1, h.2.2.2.2.2.1, h.2.2.2.2.2.2⟩

/-! ### Exact tracking of one waiter through `subscribe` -/

/-- Of a reversed id list, the ids that are cached with a non-empty
failed-paths list, in processing order. -/
def cachedFailedPart (cacheF : String → Option (List String)) (rev : List String) :
    List String :=
  rev.filter fun b =>
    match cacheF b with
    | some r => r.length != 0
    | none => false

/-- Of a reversed id list, the ids that are not yet cached, in
processing order. -/
def uncachedPart (cacheF : String → Option (List String)) (rev : List String) :
    List String :=
  rev.filter fun b => (cacheF b).isNone

lemma runWaiterFn_self (st : State) (wid : Nat) (b : String) (ps : List String)
    (df : List String) (n : Int) (hw : st.waiters wid = some ⟨df, n⟩) :
    (runWaiterFn st wid b ps).waiters wid =
      some ⟨df ++ (if ps.length ≠ 0 then [b] else []), n - 1⟩ ∧
    callsOf (runWaiterFn st wid b ps) wid =
      callsOf st wid ++
        (if n - 1 = 0 then [df ++ (if ps.length ≠ 0 then [b] else [])] else []) := by
  unfold runWaiterFn
  rw [hw]
  simp only []
  by_cases hz : n - 1 = 0
  · rw [if_pos hz, if_pos hz]
    constructor
    · rw [logEvent_waiters, setWaiter_waiters, if_pos rfl]
      by_cases hp : ps.length ≠ 0 <;> simp [hp, hz]
    · rw [callsOf_logEvent, callHit_waiterCalled, if_pos rfl]
      have : callsOf (setWaiter st wid
          ⟨if ps.length ≠ 0 then df ++ [b] else df, n - 1⟩) wid = callsOf st wid := by
        rw [callsOf_eq, setWaiter_events, ← callsOf_eq]
      rw [this]
      by_cases hp : ps.length ≠ 0 <;> simp [hp]
  · rw [if_neg hz, if_neg hz]
    constructor
    · rw [setWaiter_waiters, if_pos rfl]
      by_cases hp : ps.length ≠ 0 <;> simp [hp]
    · rw [callsOf_eq, setWaiter_events, ← callsOf_eq]
      simp

lemma subscribeLoop_run (wid : Nat) (rev : List String) (s : State) (df : List String)
    (k : Nat) (n : Int)
    (hw : s.waiters wid = some ⟨df, n⟩)
    (hn : n = (rev.length : Int) + (k : Int)) :
    (subscribeLoop wid rev s).waiters wid =
      some ⟨df ++ cachedFailedPart s.bundleResultCache rev,
        (k : Int) + ((uncachedPart s.bundleResultCache rev).length : Int)⟩ ∧
    (∀ b, (subscribeLoop wid rev s).bundleCallbackQueue b =
      s.bundleCallbackQueue b ++
        List.replicate ((uncachedPart s.bundleResultCache rev).count b) wid) ∧
    callsOf (subscribeLoop wid rev s) wid =
      callsOf s wid ++
        (if rev ≠ [] ∧ k = 0 ∧ uncachedPart s.bundleResultCache rev = []
         then [df ++ cachedFailedPart s.bundleResultCache rev] else []) := by
  induction rev generalizing s df k n with
  | nil =>
    refine ⟨?_, fun b => ?_, ?_⟩
    · rw [subscribeLoop]
      rw [hw]
      simp only [List.length_nil, Nat.cast_zero, zero_add] at hn
      simp [cachedFailedPart, uncachedPart, hn]
    · simp [subscribeLoop, uncachedPart]
    · simp [subscribeLoop]
  | cons b rest ih =>
    rw [subscribeLoop]
    cases hc : s.bundleResultCache b with
    | some r =>
      simp only []
      have hcf : cachedFailedPart s.bundleResultCache (b :: rest) =
          (if r.length ≠ 0 then [b] else []) ++ cachedFailedPart s.bundleResultCache rest := by
        by_cases hr : r.length ≠ 0 <;>
          simp [cachedFailedPart, List.filter_cons, hc, hr]
      have huc : uncachedPart s.bundleResultCache (b :: rest) =
          uncachedPart s.bundleResultCache rest := by
        simp [uncachedPart, List.filter_cons, hc]
      obtain ⟨hw1, hcall1⟩ := runWaiterFn_self s wid b r df n hw
      have hcache1 : (runWaiterFn s wid b r).bundleResultCache = s.bundleResultCache :=
        runWaiterFn_cache s wid b r
      have hn1 : n - 1 = ((rest.length : Int) + (k : Int)) := by
        rw [hn]
        push_cast [List.length_cons]
        ring
      obtain ⟨g1, g2, g3⟩ := ih (runWaiterFn s wid b r) _ k (n - 1) hw1 hn1
      rw [hcache1] at g1 g2 g3
      refine ⟨?_, fun c => ?_, ?_⟩
      · rw [g1, hcf, huc, List.append_assoc]
      · rw [g2 c, runWaiterFn_queue, huc]
      · rw [g3, hcall1, hcf, huc]
        by_cases hz : n - 1 = 0
        · -- the counter hit zero: rest and k must both be exhausted
          have hrest : rest = [] ∧ k = 0 := by
            rw [hn1] at hz
            constructor
            · rw [← List.length_eq_zero]
              omega
            · omega
          obtain ⟨hr0, hk0⟩ := hrest
          subst hr0
          rw [if_pos hz]
          have : ¬(([] : List String) ≠ [] ∧ k = 0 ∧
              uncachedPart s.bundleResultCache [] = []) := by
            simp
          rw [if_neg this]
          have htrue : ((b :: [] : List String) ≠ [] ∧ k = 0 ∧
              uncachedPart s.bundleResultCache [] = []) := by
            refine ⟨by simp, hk0, by simp [uncachedPart]⟩
          rw [if_pos htrue]
          simp [cachedFailedPart]
        · rw [if_neg hz]
          by_cases hcond : rest ≠ [] ∧ k = 0 ∧ uncachedPart s.bundleResultCache rest = []
          · rw [if_pos hcond]
            have htrue : ((b :: rest : List String) ≠ [] ∧ k = 0 ∧
                uncachedPart s.bundleResultCache rest = []) :=
              ⟨by simp, hcond.2.1, hcond.2.2⟩
            rw [if_pos htrue]
            simp [List.append_assoc]
          · rw [if_neg hcond]
            have hfalse : ¬((b :: rest : List String) ≠ [] ∧ k = 0 ∧
                uncachedPart s.bundleResultCache rest = []) := by
              intro ⟨_, hk0, hu0⟩
              rcases List.eq_nil_or_concat rest with hr0 | _
              · apply hz
                rw [hn1, hr0, hk0]
                rfl
              · exact hcond ⟨by
                  intro hnil
                  apply hz
                  rw [hn1, hnil, hk0]
                  rfl, hk0, hu0⟩
            rw [if_neg hfalse, List.append_nil, List.append_nil]
    | none =>
      simp only []
      have hcf : cachedFailedPart s.bundleResultCache (b :: rest) =
          cachedFailedPart s.bundleResultCache rest := by
        simp [cachedFailedPart, List.filter_cons, hc]
      have huc : uncachedPart s.bundleResultCache (b :: rest) =
          b :: uncachedPart s.bundleResultCache rest := by
        simp [uncachedPart, List.filter_cons, hc]
      have hw1 : (pushQueue s b wid).waiters wid = some ⟨df, n⟩ := hw
      have hcache1 : (pushQueue s b wid).bundleResultCache = s.bundleResultCache := rfl
      have hn1 : n = ((rest.length : Int) + ((k + 1 : Nat) : Int)) := by
        rw [hn]
        push_cast [List.length_cons]
        ring
      obtain ⟨g1, g2, g3⟩ := ih (pushQueue s b wid) df (k + 1) n hw1 hn1
      rw [hcache1] at g1 g2 g3
      refine ⟨?_, fun c => ?_, ?_⟩
      · rw [g1, hcf, huc]
        have : ((k : Int) + ((b :: uncachedPart s.bundleResultCache rest).length : Int)) =
            (((k + 1 : Nat) : Int) +
              ((uncachedPart s.bundleResultCache rest).length : Int)) := by
          push_cast [List.length_cons]
          ring
        rw [this]
      · rw [g2 c, huc]
        unfold pushQueue
        rw [setQueue_queue]
        by_cases hcb : c = b
        · subst hcb
          rw [if_pos rfl, List.count_cons_self, List.append_assoc]
          congr 1
        · rw [if_neg hcb, List.count_cons_of_ne hcb]
      · rw [g3, huc]
        have h1 : ¬(rest ≠ [] ∧ k + 1 = 0 ∧
            uncachedPart s.bundleResultCache rest = []) := by
          rintro ⟨_, hk, _⟩
          omega
        have h2 : ¬((b :: rest : List String) ≠ [] ∧ k = 0 ∧
            (b :: uncachedPart s.bundleResultCache rest : List String) = []) := by
          rintro ⟨_, _, hu⟩
          exact absurd hu (by simp)
        rw [if_neg h1, if_neg h2]
        unfold pushQueue
        rw [callsOf_eq, setQueue_events, ← callsOf_eq]

/-! ### Exact tracking of one waiter through a sequence of publishes -/

def applyPubs (pubs : List (String × List String)) (st : State) : State :=
  pubs.foldl (fun s p => publish p.1 p.2 s) st

/-- The failed-paths list with which a requested id settles for a
subscriber: the cached result if the id was cached at subscribe time,
else the list carried by the first publish of that id. -/
def settledResult (st : State) (pubs : List (String × List String)) (b : String) :
    Option (List String) :=
  match st.bundleResultCache b with
  | some r => some r
  | none => pubs.lookup b

/-- Whether a requested id settles with a non-empty failed-paths list. -/
def failedId (st : State) (pubs : List (String × List String)) (b : String) : Bool :=
  ((settledResult st pubs b).getD []).length != 0

lemma foldl_runWaiterFn_self (q : List Nat) (s : State) (c : String) (r : List String)
    (wid : Nat) (df : List String) (n : Int)
    (hw : s.waiters wid = some ⟨df, n⟩)
    (hk : ((q.count wid : Nat) : Int) ≤ n) :
    (q.foldl (fun x w => runWaiterFn x w c r) s).waiters wid =
      some ⟨df ++ (if r.length ≠ 0 then List.replicate (q.count wid) c else []),
        n - (q.count wid : Int)⟩ ∧
    callsOf (q.foldl (fun x w => runWaiterFn x w c r) s) wid =
      callsOf s wid ++
        (if n - (q.count wid : Int) = 0 ∧ 1 ≤ q.count wid then
          [df ++ (if r.length ≠ 0 then List.replicate (q.count wid) c else [])]
         else []) ∧
    (q.foldl (fun x w => runWaiterFn x w c r) s).bundleCallbackQueue =
      s.bundleCallbackQueue ∧
    (q.foldl (fun x w => runWaiterFn x w c r) s).bundleResultCache =
      s.bundleResultCache := by
  induction q generalizing s df n with
  | nil =>
    refine ⟨?_, ?_, rfl, rfl⟩
    · rw [List.foldl_nil, hw]
      simp
    · rw [List.foldl_nil]
      simp
  | cons w rest ih =>
    rw [List.foldl_cons]
    by_cases hww : w = wid
    · subst hww
      obtain ⟨hw1, hcall1⟩ := runWaiterFn_self s w c r df n hw
      have hcnt : (w :: rest).count w = rest.count w + 1 := List.count_cons_self w rest
      have hk1 : ((rest.count w : Nat) : Int) ≤ n - 1 := by
        rw [hcnt] at hk
        push_cast at hk ⊢
        omega
      obtain ⟨g1, g2, g3, g4⟩ := ih (runWaiterFn s w c r) _ (n - 1) hw1 hk1
      have hdf : ∀ k : Nat,
          (df ++ (if r.length ≠ 0 then [c] else [])) ++
              (if r.length ≠ 0 then List.replicate k c else []) =
            df ++ (if r.length ≠ 0 then List.replicate (k + 1) c else []) := by
        intro k
        by_cases hr : r.length ≠ 0
        · rw [if_pos hr, if_pos hr, if_pos hr, List.append_assoc, List.replicate_succ]
          rfl
        · rw [if_neg hr, if_neg hr, if_neg hr, List.append_nil, List.append_nil]
      refine ⟨?_, ?_, by rw [g3, runWaiterFn_queue], by rw [g4, runWaiterFn_cache]⟩
      · rw [g1, hcnt, hdf]
        have : n - 1 - ((rest.count w : Nat) : Int) =
            n - (((rest.count w + 1 : Nat) : Nat) : Int) := by
          push_cast
          ring
        rw [this]
      · rw [g2, hcall1, hcnt, List.append_assoc]
        by_cases hz : n - 1 = 0
        · have hk0 : rest.count w = 0 := by omega
          rw [if_pos hz, hk0]
          have hcond1 : ¬(n - 1 - ((0 : Nat) : Int) = 0 ∧ 1 ≤ 0) := by
            rintro ⟨_, hle⟩
            omega
          rw [if_neg hcond1, List.append_nil]
          have hcond2 : n - ((0 + 1 : Nat) : Int) = 0 ∧ 1 ≤ 0 + 1 := by
            constructor
            · push_cast
              omega
            · omega
          rw [if_pos hcond2]
          simp [List.replicate_succ]
        · rw [if_neg hz, List.nil_append]
          by_cases hfin : n - ((rest.count w + 1 : Nat) : Int) = 0
          · have hge : 1 ≤ rest.count w := by
              push_cast at hfin
              omega
            have hcond1 : n - 1 - ((rest.count w : Nat) : Int) = 0 ∧ 1 ≤ rest.count w := by
              constructor
              · push_cast at hfin ⊢
                omega
              · exact hge
            have hcond2 : n - ((rest.count w + 1 : Nat) : Int) = 0 ∧ 1 ≤ rest.count w + 1 := by
              exact ⟨hfin, by omega⟩
            rw [if_pos hcond1, if_pos hcond2, hdf (rest.count w)]
          · have hcond1 : ¬(n - 1 - ((rest.count w : Nat) : Int) = 0 ∧ 1 ≤ rest.count w) := by
              rintro ⟨heq, _⟩
              apply hfin
              push_cast at heq ⊢
              omega
            have hcond2 : ¬(n - ((rest.count w + 1 : Nat) : Int) = 0 ∧
                1 ≤ rest.count w + 1) := by
              rintro ⟨heq, _⟩
              exact hfin heq
            rw [if_neg hcond1, if_neg hcond2]
    · have hw1 : (runWaiterFn s w c r).waiters wid = some ⟨df, n⟩ := by
        rw [runWaiterFn_waiters_ne s w c r wid (fun h => hww h.symm)]
        exact hw
      have hcnt : (w :: rest).count wid = rest.count wid :=
        List.count_cons_of_ne (fun h => hww h.symm) rest
      have hk1 : ((rest.count wid : Nat) : Int) ≤ n := by
        rw [hcnt] at hk
        exact hk
      obtain ⟨g1, g2, g3, g4⟩ := ih (runWaiterFn s w c r) df n hw1 hk1
      refine ⟨by rw [g1, hcnt], ?_, by rw [g3, runWaiterFn_queue],
        by rw [g4, runWaiterFn_cache]⟩
      rw [g2, callsOf_runWaiterFn_ne s w c r wid hww, hcnt]

lemma applyPubs_notqueued (pubs : List (String × List String)) (st : State) (wid : Nat)
    (h : ∀ c, wid ∉ st.bundleCallbackQueue c) :
    callsOf (applyPubs pubs st) wid = callsOf st wid ∧
    (∀ c, wid ∉ (applyPubs pubs st).bundleCallbackQueue c) := by
  induction pubs generalizing st with
  | nil => exact ⟨rfl, h⟩
  | cons p rest ih =>
    obtain ⟨g1, g2⟩ := ih (publish p.1 p.2 st) (publish_notqueued p.1 p.2 st wid h)
    refine ⟨?_, g2⟩
    rw [show applyPubs (p :: rest) st = applyPubs rest (publish p.1 p.2 st) from rfl] at *
    rw [g1, callsOf_publish_not_mem p.1 p.2 st wid (h p.1)]

lemma pend_split (pend : List String) (c : String) :
    (pend.filter (fun x => !(x == c))).length + pend.count c = pend.length := by
  have h := (List.filter_append_perm (fun x => x == c) pend).length_eq
  rw [List.length_append] at h
  have h2 : (pend.filter (fun x => x == c)).length = pend.count c := by
    rw [List.filter_beq pend c, List.length_replicate]
  omega

lemma count_filter_ne (pend : List String) (c b : String) (h : b ≠ c) :
    (pend.filter (fun x => !(x == c))).count b = pend.count b := by
  rw [List.count_filter]
  simp [h]

lemma count_filter_self (pend : List String) (c : String) :
    (pend.filter (fun x => !(x == c))).count c = 0 := by
  rw [List.count_eq_zero]
  intro hmem
  have := List.of_mem_filter hmem
  simp at this

lemma filter_split_perm (pend : List String) (c : String) (p : String → Bool) :
    List.Perm (pend.filter p)
      ((List.replicate (pend.count c) c).filter p ++
        (pend.filter (fun x => !(x == c))).filter p) := by
  have h := (List.filter_append_perm (fun x => x == c) pend).symm.filter p
  rw [List.filter_append, List.filter_beq pend c] at h
  exact h

/-- Effect of one `publish` on a waiter whose pending occurrences are
tracked by the multiset `pend`, in the case the published id is pending. -/
lemma publish_pend_mem (c : String) (r : List String) (st : State) (wid : Nat)
    (pend df pend' : List String)
    (hw : st.waiters wid = some ⟨df, (pend.length : Int)⟩)
    (hq : ∀ b, (st.bundleCallbackQueue b).count wid = pend.count b)
    (hcache : ∀ b ∈ pend, st.bundleResultCache b = none)
    (hc : c ∈ pend) (hcne : c ≠ "")
    (hp' : pend' = pend.filter (fun x => !(x == c))) :
    (publish c r st).waiters wid =
      some ⟨df ++ (if r.length ≠ 0 then List.replicate (pend.count c) c else []),
        (pend'.length : Int)⟩ ∧
    (∀ b, ((publish c r st).bundleCallbackQueue b).count wid = pend'.count b) ∧
    (∀ b ∈ pend', (publish c r st).bundleResultCache b = none) ∧
    callsOf (publish c r st) wid =
      callsOf st wid ++
        (if pend' = [] then
          [df ++ (if r.length ≠ 0 then List.replicate (pend.count c) c else [])]
         else []) := by
  have hlen : pend'.length + pend.count c = pend.length := by
    rw [hp']
    exact pend_split pend c
  have hcpos : 1 ≤ pend.count c := List.count_pos_iff.mpr hc
  rw [publish_eq_foldl c r st hcne]
  have hw0 : (setCache (logEvent st (.published c r)) c r).waiters wid =
      some ⟨df, (pend.length : Int)⟩ := hw
  have hk : (((st.bundleCallbackQueue c).count wid : Nat) : Int) ≤ (pend.length : Int) := by
    rw [hq c]
    exact_mod_cast List.count_le_length c pend
  obtain ⟨g1, g2, g3, g4⟩ := foldl_runWaiterFn_self (st.bundleCallbackQueue c)
    (setCache (logEvent st (.published c r)) c r) c r wid df (pend.length : Int) hw0 hk
  have hqc : (st.bundleCallbackQueue c).count wid = pend.count c := hq c
  refine ⟨?_, fun b => ?_, fun b hb => ?_, ?_⟩
  · rw [setQueue_waiters, g1, hqc]
    have hnum : (pend.length : Int) - ((pend.count c : Nat) : Int) =
        ((pend'.length : Nat) : Int) := by
      omega
    rw [hnum]
  · rw [setQueue_queue]
    by_cases hbc : b = c
    · subst hbc
      rw [if_pos rfl]
      have : pend'.count b = 0 := by
        rw [hp']
        exact count_filter_self pend b
      rw [this]
      rfl
    · rw [if_neg hbc, g3]
      show (st.bundleCallbackQueue b).count wid = _
      rw [hq b, hp', count_filter_ne pend c b hbc]
  · have hbp : b ∈ pend := by
      rw [hp'] at hb
      exact List.mem_of_mem_filter hb
    have hbc : b ≠ c := by
      rw [hp'] at hb
      have := List.of_mem_filter hb
      simp at this
      exact this
    rw [setQueue_cache, g4, setCache_cache, if_neg hbc, logEvent_cache]
    exact hcache b hbp
  · have hcalls : callsOf (setQueue ((st.bundleCallbackQueue c).foldl
        (fun x w => runWaiterFn x w c r)
        (setCache (logEvent st (.published c r)) c r)) c []) wid =
        callsOf ((st.bundleCallbackQueue c).foldl (fun x w => runWaiterFn x w c r)
          (setCache (logEvent st (.published c r)) c r)) wid := by
      rw [callsOf_eq, setQueue_events, ← callsOf_eq]
    rw [hcalls, g2, hqc]
    have hcalls0 : callsOf (setCache (logEvent st (.published c r)) c r) wid =
        callsOf st wid := by
      rw [callsOf_eq, setCache_events, logEvent_events, List.flatMap_append, ← callsOf_eq]
      simp
    rw [hcalls0]
    have hiff : ((pend.length : Int) - ((pend.count c : Nat) : Int) = 0 ∧
        1 ≤ pend.count c) ↔ pend' = [] := by
      constructor
      · rintro ⟨hz, _⟩
        rw [← List.length_eq_zero]
        omega
      · intro hnil
        refine ⟨?_, hcpos⟩
        rw [hnil] at hlen
        simp at hlen
        omega
    rw [if_congr hiff rfl rfl]

/-- Effect of one `publish` on a tracked waiter when the published id is
not among its pending ids: everything tracked is preserved. -/
lemma publish_pend_not_mem (c : String) (r : List String) (st : State) (wid : Nat)
    (pend df : List String)
    (hw : st.waiters wid = some ⟨df, (pend.length : Int)⟩)
    (hq : ∀ b, (st.bundleCallbackQueue b).count wid = pend.count b)
    (hcache : ∀ b ∈ pend, st.bundleResultCache b = none)
    (hc : c ∉ pend) :
    (publish c r st).waiters wid = some ⟨df, (pend.length : Int)⟩ ∧
    (∀ b, ((publish c r st).bundleCallbackQueue b).count wid = pend.count b) ∧
    (∀ b ∈ pend, (publish c r st).bundleResultCache b = none) ∧
    callsOf (publish c r st) wid = callsOf st wid := by
  have hc0 : (st.bundleCallbackQueue c).count wid = 0 := by
    rw [hq c]
    exact List.count_eq_zero_of_not_mem hc
  have hnm : wid ∉ st.bundleCallbackQueue c := List.not_mem_of_count_eq_zero hc0
  refine ⟨?_, fun b => ?_, fun b hb => ?_, callsOf_publish_not_mem c r st wid hnm⟩
  · rw [publish_waiters_not_mem c r st wid hnm]
    exact hw
  · by_cases hbc : b = c
    · subst hbc
      by_cases hbe : b = ""
      · rw [hbe, publish_empty_id]
        exact hq ""
      · rw [publish_queue_self b r st hbe]
        rw [List.count_eq_zero_of_not_mem hc]
        rfl
    · rw [publish_queue_ne c r st b hbc]
      exact hq b
  · have hbc : b ≠ c := fun h => hc (h ▸ hb)
    rw [publish_cache_ne c r st b hbc]
    exact hcache b hb

/-- Running a publish sequence that covers every pending id of a tracked
waiter invokes its callback exactly once, with an argument that is a
permutation of its already-failed ids followed by the pending ids whose
first publish carried a non-empty failed-paths list. -/
lemma applyPubs_spec (pubs : List (String × List String)) (st : State) (wid : Nat)
    (pend df : List String)
    (hw : st.waiters wid = some ⟨df, (pend.length : Int)⟩)
    (hq : ∀ b, (st.bundleCallbackQueue b).count wid = pend.count b)
    (hcache : ∀ b ∈ pend, st.bundleResultCache b = none)
    (hpne : ∀ b ∈ pend, b ≠ "")
    (hcov : ∀ b ∈ pend, (pubs.lookup b).isSome = true)
    (hne : pend ≠ []) :
    ∃ l, callsOf (applyPubs pubs st) wid = callsOf st wid ++ [l] ∧
      List.Perm l
        (df ++ pend.filter (fun b => ((pubs.lookup b).getD []).length != 0)) := by
  induction pubs generalizing st pend df with
  | nil =>
    obtain ⟨b, hb⟩ := List.exists_mem_of_ne_nil pend hne
    have := hcov b hb
    simp at this
  | cons p rest ih =>
    obtain ⟨c, r⟩ := p
    have hstep : applyPubs ((c, r) :: rest) st = applyPubs rest (publish c r st) := rfl
    rw [hstep]
    by_cases hc : c ∈ pend
    · have hcne : c ≠ "" := hpne c hc
      set pend' := pend.filter (fun x => !(x == c)) with hp'
      obtain ⟨g1, g2, g3, g4⟩ :=
        publish_pend_mem c r st wid pend df pend' hw hq hcache hc hcne hp'
      have hmemp' : ∀ b ∈ pend', b ∈ pend ∧ b ≠ c := by
        intro b hb
        refine ⟨List.mem_of_mem_filter hb, ?_⟩
        have := List.of_mem_filter hb
        simpa using this
      have hlkne : ∀ b, b ≠ c →
          (((c, r) :: rest).lookup b) = rest.lookup b := by
        intro b hbc
        rw [List.lookup_cons]
        have : (b == c) = false := by simpa using hbc
        rw [this]
      have hlkc : (((c, r) :: rest).lookup c) = some r := by
        rw [List.lookup_cons]
        have : (c == c) = true := beq_self_eq_true c
        rw [this]
      by_cases hp0 : pend' = []
      · -- every pending occurrence was this id: the waiter fires now
        rw [if_pos hp0] at g4
        have hall : ∀ b ∈ pend, c = b := by
          have hcnt : pend.count c = pend.length := by
            have := pend_split pend c
            rw [← hp', hp0] at this
            simpa using this
          exact List.count_eq_length.mp hcnt
        have hrep : pend = List.replicate (pend.count c) c := by
          rw [List.count_eq_length.mpr hall]
          rw [List.eq_replicate_iff]
          exact ⟨rfl, fun b hb => (hall b hb).symm⟩
        have hunq : ∀ b, wid ∉ (publish c r st).bundleCallbackQueue b := by
          intro b
          apply List.not_mem_of_count_eq_zero
          rw [g2 b, hp0]
          rfl
        obtain ⟨hfin, _⟩ := applyPubs_notqueued rest (publish c r st) wid hunq
        refine ⟨df ++ (if r.length ≠ 0 then List.replicate (pend.count c) c else []),
          by rw [hfin, g4], ?_⟩
        have hpc : (((((c, r) :: rest).lookup c).getD []).length != 0) =
            decide (r.length ≠ 0) := by
          rw [hlkc]
          cases r <;> simp
        have hfilter : pend.filter
            (fun b => ((((c, r) :: rest).lookup b).getD []).length != 0) =
            if r.length ≠ 0 then List.replicate (pend.count c) c else [] := by
          nth_rewrite 1 [hrep]
          rw [List.filter_replicate, hpc]
          by_cases hr : r.length ≠ 0 <;> simp [hr]
        rw [hfilter]
      · -- other pending ids remain: no fire yet, recurse
        rw [if_neg hp0] at g4
        have hcache' : ∀ b ∈ pend', (publish c r st).bundleResultCache b = none := g3
        have hpne' : ∀ b ∈ pend', b ≠ "" := fun b hb => hpne b (hmemp' b hb).1
        have hcov' : ∀ b ∈ pend', (rest.lookup b).isSome = true := by
          intro b hb
          have := hcov b (hmemp' b hb).1
          rw [hlkne b (hmemp' b hb).2] at this
          exact this
        obtain ⟨l, hl, hperm⟩ := ih (publish c r st) pend'
          (df ++ (if r.length ≠ 0 then List.replicate (pend.count c) c else []))
          g1 g2 hcache' hpne' hcov' hp0
        refine ⟨l, by rw [hl, g4]; simp, ?_⟩
        have hsplit := filter_split_perm pend c
          (fun b => ((((c, r) :: rest).lookup b).getD []).length != 0)
        have hpc : (((((c, r) :: rest).lookup c).getD []).length != 0) =
            decide (r.length ≠ 0) := by
          rw [hlkc]
          cases r <;> simp
        have hfc : (List.replicate (pend.count c) c).filter
            (fun b => ((((c, r) :: rest).lookup b).getD []).length != 0) =
            (if r.length ≠ 0 then List.replicate (pend.count c) c else []) := by
          rw [List.filter_replicate, hpc]
          by_cases hr : r.length ≠ 0 <;> simp [hr]
        have hfp : pend'.filter
            (fun b => ((((c, r) :: rest).lookup b).getD []).length != 0) =
            pend'.filter (fun b => ((rest.lookup b).getD []).length != 0) := by
          apply List.filter_congr
          intro b hb
          rw [hlkne b (hmemp' b hb).2]
        rw [← hp', hfc, hfp] at hsplit
        refine hperm.trans ?_
        rw [List.append_assoc]
        exact (hsplit.append_left df).symm
    · have hcne2 : ∀ b ∈ pend, b ≠ c := fun b hb h => hc (h ▸ hb)
      obtain ⟨g1, g2, g3, g4⟩ := publish_pend_not_mem c r st wid pend df hw hq hcache hc
      have hcov' : ∀ b ∈ pend, (rest.lookup b).isSome = true := by
        intro b hb
        have h1 := hcov b hb
        rw [List.lookup_cons] at h1
        have : (b == c) = false := by simpa using hcne2 b hb
        rw [this] at h1
        exact h1
      obtain ⟨l, hl, hperm⟩ := ih (publish c r st) pend df g1 g2 g3 hpne hcov' hne
      refine ⟨l, by rw [hl, g4], ?_⟩
      refine hperm.trans ?_
      have : pend.filter (fun b => ((rest.lookup b).getD []).length != 0) =
          pend.filter (fun b => ((((c, r) :: rest).lookup b).getD []).length != 0) := by
        apply List.filter_congr
        intro b hb
        rw [List.lookup_cons]
        have : (b == c) = false := by simpa using hcne2 b hb
        rw [this]
      rw [this]

/-- As long as some pending id of a tracked waiter has not been
published, the waiter's callback has not fired. -/
lemma applyPubs_no_fire (pubs : List (String × List String)) (st : State) (wid : Nat)
    (pend df : List String)
    (hw : st.waiters wid = some ⟨df, (pend.length : Int)⟩)
    (hq : ∀ b, (st.bundleCallbackQueue b).count wid = pend.count b)
    (hcache : ∀ b ∈ pend, st.bundleResultCache b = none)
    (hpne : ∀ b ∈ pend, b ≠ "")
    (hmiss : ∃ b, b ∈ pend ∧ pubs.lookup b = none) :
    callsOf (applyPubs pubs st) wid = callsOf st wid := by
  induction pubs generalizing st pend df with
  | nil => rfl
  | cons p rest ih =>
    obtain ⟨c, r⟩ := p
    obtain ⟨b0, hb0, hlk0⟩ := hmiss
    have hb0c : b0 ≠ c := by
      intro h
      subst h
      rw [List.lookup_cons] at hlk0
      rw [beq_self_eq_true b0] at hlk0
      exact absurd hlk0 (by simp)
    have hlk0' : rest.lookup b0 = none := by
      rw [List.lookup_cons] at hlk0
      have : (b0 == c) = false := by simpa using hb0c
      rw [this] at hlk0
      exact hlk0
    have hstep : applyPubs ((c, r) :: rest) st = applyPubs rest (publish c r st) := rfl
    rw [hstep]
    by_cases hc : c ∈ pend
    · have hcne : c ≠ "" := hpne c hc
      set pend' := pend.filter (fun x => !(x == c)) with hp'
      obtain ⟨g1, g2, g3, g4⟩ :=
        publish_pend_mem c r st wid pend df pend' hw hq hcache hc hcne hp'
      have hb0p' : b0 ∈ pend' := by
        rw [hp']
        apply List.mem_filter.mpr
        refine ⟨hb0, ?_⟩
        simpa using hb0c
      have hp0 : pend' ≠ [] := List.ne_nil_of_mem hb0p'
      rw [if_neg hp0] at g4
      have hpne' : ∀ b ∈ pend', b ≠ "" := fun b hb =>
        hpne b (List.mem_of_mem_filter hb)
      have := ih (publish c r st) pend'
        (df ++ (if r.length ≠ 0 then List.replicate (pend.count c) c else []))
        g1 g2 g3 hpne' ⟨b0, hb0p', hlk0'⟩
      rw [this, g4]
      simp
    · obtain ⟨g1, g2, g3, g4⟩ := publish_pend_not_mem c r st wid pend df hw hq hcache hc
      have := ih (publish c r st) pend df g1 g2 g3 hpne ⟨b0, hb0, hlk0'⟩
      rw [this, g4]

/-- C1: a `ready`/`subscribe` call with a non-empty list of bundle ids
has its waiter callback invoked exactly once, and only once every
requested id has settled — ids already in the result cache settle
immediately, the others at their first publish; the argument the
callback receives consists exactly (up to settlement order) of the
requested ids whose settling failed-paths list was non-empty.  The third
conjunct expresses the "only after" direction: as long as some requested
uncached id has not been published, the callback has not fired. -/
theorem ready_fires_once (st : State) (ids : List String)
    (pubs : List (String × List String))
    (hne : ids ≠ [])
    (hids : ∀ b ∈ ids, b ≠ "")
    (hfresh : ∀ b, st.nextWaiterId ∉ st.bundleCallbackQueue b)
    (hcov : ∀ b ∈ ids, st.bundleResultCache b = none → (pubs.lookup b).isSome = true) :
    callsOf (applyPubs pubs (subscribe ids st)) st.nextWaiterId =
      callsOf st st.nextWaiterId ++
        [(callsOf (applyPubs pubs (subscribe ids st)) st.nextWaiterId).getLastD []] ∧
    List.Perm
      ((callsOf (applyPubs pubs (subscribe ids st)) st.nextWaiterId).getLastD [])
      (ids.filter (failedId st pubs)) ∧
    (∀ pubs1 pubs2, pubs = pubs1 ++ pubs2 →
      (∃ b, b ∈ ids ∧ st.bundleResultCache b = none ∧ pubs1.lookup b = none) →
      callsOf (applyPubs pubs1 (subscribe ids st)) st.nextWaiterId =
        callsOf st st.nextWaiterId) := by
  set wid := st.nextWaiterId with hwid
  have hsub : subscribe ids st =
      subscribeLoop wid ids.reverse
        { st with
          waiters := fun i =>
            if i = wid then some ⟨[], (ids.length : Int)⟩ else st.waiters i
          nextWaiterId := wid + 1 } := rfl
  set st1 : State :=
    { st with
      waiters := fun i =>
        if i = wid then some ⟨[], (ids.length : Int)⟩ else st.waiters i
      nextWaiterId := wid + 1 } with hst1
  have hw1 : st1.waiters wid = some ⟨[], (ids.length : Int)⟩ := by
    rw [hst1]
    simp
  have hn1 : (ids.length : Int) = ((ids.reverse.length : Nat) : Int) + ((0 : Nat) : Int) := by
    rw [List.length_reverse]
    simp
  obtain ⟨sub1, sub2, sub3⟩ := subscribeLoop_run wid ids.reverse st1 [] 0 _ hw1 hn1
  have hc1 : st1.bundleResultCache = st.bundleResultCache := rfl
  rw [hc1] at sub1 sub2 sub3
  have hcallsub : callsOf st1 wid = callsOf st wid := rfl
  rw [hcallsub] at sub3
  have hq1 : st1.bundleCallbackQueue = st.bundleCallbackQueue := rfl
  rw [hq1] at sub2
  rw [← hsub] at sub1 sub2 sub3
  set U := uncachedPart st.bundleResultCache ids.reverse with hU
  set F := cachedFailedPart st.bundleResultCache ids.reverse with hF
  have hmemU : ∀ b, b ∈ U ↔ (b ∈ ids ∧ st.bundleResultCache b = none) := by
    intro b
    rw [hU]
    unfold uncachedPart
    rw [List.mem_filter, List.mem_reverse]
    simp [Option.isNone_iff_eq_none]
  by_cases hU0 : U = []
  · have hrevne : ids.reverse ≠ [] := by
      simpa using hne
    have hcond : ids.reverse ≠ [] ∧ 0 = 0 ∧ U = [] := ⟨hrevne, rfl, hU0⟩
    rw [if_pos hcond] at sub3
    have hnq : ∀ b, wid ∉ (subscribe ids st).bundleCallbackQueue b := by
      intro b
      rw [sub2 b, hU0]
      simpa using hfresh b
    have happ : ∀ ps : List (String × List String),
        callsOf (applyPubs ps (subscribe ids st)) wid = callsOf st wid ++ [F] := by
      intro ps
      obtain ⟨h1, _⟩ := applyPubs_notqueued ps (subscribe ids st) wid hnq
      rw [h1, sub3]
      simp
    have hlast : (callsOf (applyPubs pubs (subscribe ids st)) wid).getLastD [] = F := by
      rw [happ pubs, List.getLastD_concat]
    have hFeq : F = ids.reverse.filter (failedId st pubs) := by
      rw [hF]
      unfold cachedFailedPart
      apply List.filter_congr
      intro b hb
      cases hcb : st.bundleResultCache b with
      | some r =>
        unfold failedId settledResult
        rw [hcb]
        rfl
      | none =>
        exfalso
        have : b ∈ U := (hmemU b).mpr ⟨List.mem_reverse.mp hb, hcb⟩
        rw [hU0] at this
        exact absurd this (List.not_mem_nil b)
    refine ⟨by rw [happ pubs, List.getLastD_concat], ?_, ?_⟩
    · rw [hlast, hFeq]
      exact (List.reverse_perm ids).filter _
    · rintro pubs1 pubs2 heq ⟨b, hbids, hbnone, _⟩
      have : b ∈ U := (hmemU b).mpr ⟨hbids, hbnone⟩
      rw [hU0] at this
      exact absurd this (List.not_mem_nil b)
  · have hcondF : ¬(ids.reverse ≠ [] ∧ 0 = 0 ∧ U = []) := by
      rintro ⟨_, _, h⟩
      exact hU0 h
    rw [if_neg hcondF, List.append_nil] at sub3
    have hwsub : (subscribe ids st).waiters wid = some ⟨F, (U.length : Int)⟩ := by
      rw [sub1]
      simp
    have hqsub : ∀ b, ((subscribe ids st).bundleCallbackQueue b).count wid = U.count b := by
      intro b
      rw [sub2 b, List.count_append, List.count_eq_zero_of_not_mem (hfresh b),
        List.count_replicate_self]
      simp
    have hcachesub : ∀ b ∈ U, (subscribe ids st).bundleResultCache b = none := by
      intro b hb
      rw [subscribe_cache]
      exact ((hmemU b).mp hb).2
    have hpneU : ∀ b ∈ U, b ≠ "" := fun b hb => hids b ((hmemU b).mp hb).1
    have hcovU : ∀ b ∈ U, (pubs.lookup b).isSome = true := fun b hb =>
      hcov b ((hmemU b).mp hb).1 ((hmemU b).mp hb).2
    obtain ⟨l, hl, hperm⟩ := applyPubs_spec pubs (subscribe ids st) wid U F
      hwsub hqsub hcachesub hpneU hcovU hU0
    rw [sub3] at hl
    have hlast : (callsOf (applyPubs pubs (subscribe ids st)) wid).getLastD [] = l := by
      rw [hl, List.getLastD_concat]
    refine ⟨by rw [hl, List.getLastD_concat], ?_, ?_⟩
    · rw [hlast]
      refine hperm.trans ?_
      have hsplit := List.filter_append_perm
        (fun b => (st.bundleResultCache b).isSome) ids.reverse
      have hnone : ids.reverse.filter (fun b => !(st.bundleResultCache b).isSome) = U := by
        rw [hU]
        unfold uncachedPart
        apply List.filter_congr
        intro b _
        cases st.bundleResultCache b <;> rfl
      rw [hnone] at hsplit
      have h1 : List.Perm (ids.reverse.filter (failedId st pubs))
          (ids.filter (failedId st pubs)) := (List.reverse_perm ids).filter _
      have h2 := hsplit.symm.filter (failedId st pubs)
      rw [List.filter_append] at h2
      have h3 : (ids.reverse.filter
          (fun b => (st.bundleResultCache b).isSome)).filter (failedId st pubs) = F := by
        rw [List.filter_filter, hF]
        unfold cachedFailedPart
        apply List.filter_congr
        intro b _
        cases hcb : st.bundleResultCache b with
        | some r =>
          unfold failedId settledResult
          rw [hcb]
          simp
        | none => simp [hcb]
      have h4 : U.filter (failedId st pubs) =
          U.filter (fun b => ((pubs.lookup b).getD []).length != 0) := by
        apply List.filter_congr
        intro b hb
        unfold failedId settledResult
        rw [((hmemU b).mp hb).2]
      rw [h3, h4] at h2
      exact h2.symm.trans h1
    · rintro pubs1 pubs2 heq ⟨b, hbids, hbnone, hlk⟩
      have hbU : b ∈ U := (hmemU b).mpr ⟨hbids, hbnone⟩
      have := applyPubs_no_fire pubs1 (subscribe ids st) wid U F
        hwsub hqsub hcachesub hpneU ⟨b, hbU, hlk⟩
      rw [this, sub3]

/-- Witness for C1 at the concrete input of the claim:
`ready(["b1","b2"], cb)` where `b1` settles with no failures and `b2`
settles with one failed path invokes `cb` once, with `["b2"]`, and has
not invoked it while `b2` is still unpublished. -/
theorem ready_fires_once_witness :
    callsOf (applyPubs [("b1", []), ("b2", ["p"])] (subscribe ["b1", "b2"] initState))
        initState.nextWaiterId =
      callsOf initState initState.nextWaiterId ++
        [(callsOf (applyPubs [("b1", []), ("b2", ["p"])]
            (subscribe ["b1", "b2"] initState)) initState.nextWaiterId).getLastD []] ∧
    List.Perm
      ((callsOf (applyPubs [("b1", []), ("b2", ["p"])]
          (subscribe ["b1", "b2"] initState)) initState.nextWaiterId).getLastD [])
      (["b1", "b2"].filter (failedId initState [("b1", []), ("b2", ["p"])])) ∧
    callsOf (applyPubs [("b1", [])] (subscribe ["b1", "b2"] initState))
        initState.nextWaiterId =
      callsOf initState initState.nextWaiterId ∧
    callsOf (applyPubs [("b1", []), ("b2", ["p"])] (subscribe ["b1", "b2"] initState))
        initState.nextWaiterId = [["b2"]] := by
  have h := ready_fires_once initState ["b1", "b2"] [("b1", []), ("b2", ["p"])]
    (by decide) (by decide) (fun b => List.not_mem_nil _) (by decide)
  exact ⟨h.1, h.2.1,
    h.2.2 [("b1", [])] [("b2", ["p"])] rfl ⟨"b2", by decide, rfl, rfl⟩,
    by decide⟩

/-! ### A bundle id that was consumed by an empty load can never settle -/

/-- Invariant protecting bundle id `b` and the tracked waiter `wid` /
load operation `lid` after an empty-path load consumed `b`: the id is
marked used (so no new load can carry it), no result has been cached for
it, the waiter sits only in `b`'s queue, and every pending load
operation that carries `b` (in particular the one at `lid`) has a
non-positive wait counter, so it can never reach zero and publish. -/
structure ProtectedB (b : String) (wid lid : Nat) (st : State) : Prop where
  idMarked : st.bundleIdCache b = true
  cacheNone : st.bundleResultCache b = none
  notQueued : ∀ c, c ≠ b → wid ∉ st.bundleCallbackQueue c
  widLt : wid < st.nextWaiterId
  lidLt : lid < st.nextLoadId
  opsCounter : ∀ l op, st.loads l = some op → op.bundleId = some b → op.numWaiting ≤ 0
  lidCounter : ∀ op, st.loads lid = some op → op.numWaiting ≤ 0

lemma finishesOf_finishLoad_ne (l lid : Nat) (hne : l ≠ lid) (bid : Option String)
    (hS hF : Bool) (ps : List String) (st : State) :
    finishesOf (finishLoad l bid hS hF ps st) lid = finishesOf st lid := by
  unfold finishLoad
  split <;> rw [finishesOf_publish, finishesOf_logEvent] <;> simp [isFinish, hne]

lemma finishesOf_dispatchLoads (paths : List String) (bid : Option String) (args : Args)
    (st : State) (l : Nat) :
    finishesOf (dispatchLoads paths bid args st) l = finishesOf st l := by
  rw [finishesOf_eq, dispatchLoads_eq]
  show (st.events ++ paths.map (Event.dispatched st.nextLoadId)).filter (isFinish l) = _
  rw [List.filter_append, filter_isFinish_dispatched, List.append_nil, ← finishesOf_eq]

lemma publish_protected (c : String) (r : List String) (b : String) (wid lid : Nat)
    (st : State) (hcb : c ≠ b) (hK : ProtectedB b wid lid st) :
    ProtectedB b wid lid (publish c r st) ∧
    callsOf (publish c r st) wid = callsOf st wid ∧
    finishesOf (publish c r st) lid = finishesOf st lid := by
  by_cases hce : c = ""
  · subst hce
    rw [publish_empty_id]
    exact ⟨hK, rfl, rfl⟩
  · have hnotq : wid ∉ st.bundleCallbackQueue c := hK.notQueued c hcb
    refine ⟨⟨?_, ?_, ?_, ?_, ?_, ?_, ?_⟩, callsOf_publish_not_mem c r st wid hnotq,
      finishesOf_publish c r st lid⟩
    · rw [publish_idCache]
      exact hK.idMarked
    · rw [publish_cache_ne c r st b (fun h => hcb h.symm)]
      exact hK.cacheNone
    · intro c' hc'
      by_cases hcc : c' = c
      · subst hcc
        rw [publish_queue_self c' r st hce]
        exact List.not_mem_nil wid
      · rw [publish_queue_ne c r st c' hcc]
        exact hK.notQueued c' hc'
    · rw [publish_nextWaiterId]
      exact hK.widLt
    · rw [publish_nextLoadId]
      exact hK.lidLt
    · intro l op hop
      rw [publish_loads] at hop
      exact hK.opsCounter l op hop
    · intro op hop
      rw [publish_loads] at hop
      exact hK.lidCounter op hop

lemma setLoad_protected (l : Nat) (st : State) (op op' : LoadOp) (b : String)
    (wid lid : Nat) (hK : ProtectedB b wid lid st) (hop : st.loads l = some op)
    (hbid : op'.bundleId = op.bundleId) (hnum : op'.numWaiting = op.numWaiting - 1) :
    ProtectedB b wid lid (setLoad st l op') := by
  refine ⟨hK.idMarked, hK.cacheNone, fun c hc => hK.notQueued c hc, hK.widLt, hK.lidLt,
    ?_, ?_⟩
  · intro l' op'' hop'' hbid''
    rw [setLoad_loads] at hop''
    by_cases hl : l' = l
    · rw [if_pos hl] at hop''
      obtain rfl : op' = op'' := by injection hop''
      have := hK.opsCounter l op hop (hbid ▸ hbid'')
      omega
    · rw [if_neg hl] at hop''
      exact hK.opsCounter l' op'' hop'' hbid''
  · intro op'' hop''
    rw [setLoad_loads] at hop''
    by_cases hl : lid = l
    · rw [if_pos hl] at hop''
      obtain rfl : op' = op'' := by injection hop''
      have := hK.lidCounter op (hl ▸ hop)
      omega
    · rw [if_neg hl] at hop''
      exact hK.lidCounter op'' hop''

lemma terminal_protected (l : Nat) (st : State) (op op' : LoadOp) (ps : List String)
    (b : String) (wid lid : Nat) (hb : b ≠ "")
    (hK : ProtectedB b wid lid st) (hop : st.loads l = some op)
    (hbid : op'.bundleId = op.bundleId) (hnum : op'.numWaiting = op.numWaiting - 1) :
    ProtectedB b wid lid
      (if op.numWaiting - 1 = 0 then
        finishLoad l op.bundleId op.hasSuccess op.hasFail ps (setLoad st l op')
      else setLoad st l op') ∧
    callsOf
      (if op.numWaiting - 1 = 0 then
        finishLoad l op.bundleId op.hasSuccess op.hasFail ps (setLoad st l op')
      else setLoad st l op') wid = callsOf st wid ∧
    finishesOf
      (if op.numWaiting - 1 = 0 then
        finishLoad l op.bundleId op.hasSuccess op.hasFail ps (setLoad st l op')
      else setLoad st l op') lid = finishesOf st lid := by
  have hK1 : ProtectedB b wid lid (setLoad st l op') :=
    setLoad_protected l st op op' b wid lid hK hop hbid hnum
  by_cases hz : op.numWaiting - 1 = 0
  · rw [if_pos hz]
    have hlne : l ≠ lid := by
      intro h
      subst h
      have := hK.lidCounter op hop
      omega
    have hbne : op.bundleId ≠ some b := by
      intro h
      have := hK.opsCounter l op hop h
      omega
    -- the published id is not b
    have hpubne : op.bundleId.getD "" ≠ b := by
      cases hcb : op.bundleId with
      | none => exact fun h => hb h.symm
      | some c =>
        intro h
        exact hbne (by rw [hcb, show c = b from h])
    unfold finishLoad
    split
    · set e := Event.failCb l ps (if op.hasFail then .user else .devnull) with he
      have hK2 : ProtectedB b wid lid (logEvent (setLoad st l op') e) :=
        ⟨hK1.idMarked, hK1.cacheNone, fun c hc => hK1.notQueued c hc, hK1.widLt,
          hK1.lidLt, fun l' op'' h hb' => hK1.opsCounter l' op'' h hb',
          fun op'' h => hK1.lidCounter op'' h⟩
      obtain ⟨p1, p2, p3⟩ := publish_protected (op.bundleId.getD "") ps b wid lid
        (logEvent (setLoad st l op') e) hpubne hK2
      refine ⟨p1, ?_, ?_⟩
      · rw [p2, callsOf_logEvent, he]
        simp [callsOf_setLoad]
      · rw [p3, finishesOf_logEvent, he]
        simp [isFinish, hlne, finishesOf_setLoad]
    · set e := Event.successCb l (if op.hasSuccess then .user else .devnull) with he
      have hK2 : ProtectedB b wid lid (logEvent (setLoad st l op') e) :=
        ⟨hK1.idMarked, hK1.cacheNone, fun c hc => hK1.notQueued c hc, hK1.widLt,
          hK1.lidLt, fun l' op'' h hb' => hK1.opsCounter l' op'' h hb',
          fun op'' h => hK1.lidCounter op'' h⟩
      obtain ⟨p1, p2, p3⟩ := publish_protected (op.bundleId.getD "") ps b wid lid
        (logEvent (setLoad st l op') e) hpubne hK2
      refine ⟨p1, ?_, ?_⟩
      · rw [p2, callsOf_logEvent, he]
        simp [callsOf_setLoad]
      · rw [p3, finishesOf_logEvent, he]
        simp [isFinish, hlne, finishesOf_setLoad]
  · rw [if_neg hz]
    exact ⟨hK1, callsOf_setLoad st l op' wid, finishesOf_setLoad st l op' lid⟩

lemma loadFileEvent_protected (l : Nat) (p : String) (res : FileResult) (dp : Bool)
    (b : String) (wid lid : Nat) (st : State) (hb : b ≠ "")
    (hK : ProtectedB b wid lid st) :
    ProtectedB b wid lid (loadFileEvent l p res dp st) ∧
    callsOf (loadFileEvent l p res dp st) wid = callsOf st wid ∧
    finishesOf (loadFileEvent l p res dp st) lid = finishesOf st lid := by
  cases hop : st.loads l with
  | none =>
    unfold loadFileEvent
    rw [hop]
    exact ⟨hK, rfl, rfl⟩
  | some op =>
    cases res with
    | success =>
      rw [loadFileEvent_success_eq l p dp st op hop]
      exact terminal_protected l st op _ _ b wid lid hb hK hop rfl rfl
    | error =>
      rw [loadFileEvent_error_eq l p dp st op hop]
      exact terminal_protected l st op _ _ b wid lid hb hK hop rfl rfl
    | blocked =>
      cases dp with
      | false =>
        rw [loadFileEvent_blocked_ignored]
        exact ⟨hK, rfl, rfl⟩
      | true =>
        rw [loadFileEvent_blocked_confirmed_eq l p st op hop]
        exact terminal_protected l st op _ _ b wid lid hb hK hop rfl rfl

lemma dispatch_protected (paths : List String) (bid : Option String) (args : Args)
    (b : String) (wid lid : Nat) (st : State)
    (hK : ProtectedB b wid lid st) (hbid : bid ≠ some b) :
    ProtectedB b wid lid (dispatchLoads paths bid args st) ∧
    callsOf (dispatchLoads paths bid args st) wid = callsOf st wid ∧
    finishesOf (dispatchLoads paths bid args st) lid = finishesOf st lid := by
  refine ⟨⟨?_, ?_, ?_, ?_, ?_, ?_, ?_⟩, callsOf_dispatchLoads paths bid args st wid,
    finishesOf_dispatchLoads paths bid args st lid⟩
  · rw [dispatchLoads_idCache]
    exact hK.idMarked
  · rw [dispatchLoads_eq]
    exact hK.cacheNone
  · intro c hc
    rw [dispatchLoads_eq]
    exact hK.notQueued c hc
  · rw [dispatchLoads_eq]
    exact hK.widLt
  · rw [dispatchLoads_eq]
    exact Nat.lt_succ_of_lt hK.lidLt
  · intro l op hop hb'
    rw [dispatchLoads_eq] at hop
    simp only [] at hop
    by_cases hl : l = st.nextLoadId
    · rw [if_pos hl] at hop
      obtain rfl : (⟨bid, args.hasSuccess, args.hasFail, (paths.length : Int), []⟩ :
          LoadOp) = op := by injection hop
      exact absurd hb' hbid
    · rw [if_neg hl] at hop
      exact hK.opsCounter l op hop hb'
  · intro op hop
    rw [dispatchLoads_eq] at hop
    simp only [] at hop
    have hl : ¬lid = st.nextLoadId := Nat.ne_of_lt hK.lidLt
    rw [if_neg hl] at hop
    exact hK.lidCounter op hop

lemma subscribe_protected (deps : List String) (b : String) (wid lid : Nat) (st : State)
    (hK : ProtectedB b wid lid st) :
    ProtectedB b wid lid (subscribe deps st) ∧
    callsOf (subscribe deps st) wid = callsOf st wid ∧
    finishesOf (subscribe deps st) lid = finishesOf st lid := by
  obtain ⟨h1, h2⟩ := subscribe_other deps st wid hK.widLt
  refine ⟨⟨?_, ?_, ?_, ?_, ?_, ?_, ?_⟩, h1, finishesOf_subscribe deps st lid⟩
  · rw [subscribe_idCache]
    exact hK.idMarked
  · rw [subscribe_cache]
    exact hK.cacheNone
  · intro c hc hmem
    exact hK.notQueued c hc ((h2 c).mp hmem)
  · rw [subscribe_nextWaiterId]
    exact Nat.lt_succ_of_lt hK.widLt
  · rw [subscribe_nextLoadId]
    exact hK.lidLt
  · intro l op hop hb'
    rw [subscribe_loads] at hop
    exact hK.opsCounter l op hop hb'
  · intro op hop
    rw [subscribe_loads] at hop
    exact hK.lidCounter op hop

lemma step_protected (a : Action) (b : String) (wid lid : Nat) (st : State) (hb : b ≠ "")
    (hK : ProtectedB b wid lid st)
    (ha1 : ∀ ps, a ≠ .publishA b ps) (ha2 : a ≠ .doneA b) :
    ProtectedB b wid lid (step st a) ∧
    callsOf (step st a) wid = callsOf st wid ∧
    finishesOf (step st a) lid = finishesOf st lid := by
  cases a with
  | ready deps => exact subscribe_protected deps b wid lid st hK
  | load paths bid args =>
    show ProtectedB b wid lid (match loadjs paths bid args st with
        | .ok st' => st' | .error _ => st) ∧
      callsOf (match loadjs paths bid args st with
        | .ok st' => st' | .error _ => st) wid = callsOf st wid ∧
      finishesOf (match loadjs paths bid args st with
        | .ok st' => st' | .error _ => st) lid = finishesOf st lid
    cases bid with
    | none =>
      have : loadjs paths none args st = .ok (dispatchLoads paths none args st) := rfl
      rw [this]
      exact dispatch_protected paths none args b wid lid st hK (by simp)
    | some c =>
      by_cases hcb : st.bundleIdCache c
      · have : loadjs paths (some c) args st = .error "LoadJS" := by
          unfold loadjs
          simp only []
          rw [if_pos hcb]
        rw [this]
        exact ⟨hK, rfl, rfl⟩
      · have hcne : c ≠ b := by
          intro h
          rw [h, hK.idMarked] at hcb
          exact hcb rfl
        have hstep : loadjs paths (some c) args st =
            .ok (dispatchLoads paths (some c) args
              { st with bundleIdCache := fun x => if x = c then true else st.bundleIdCache x }) := by
          unfold loadjs
          simp only []
          rw [if_neg hcb]
        rw [hstep]
        have hKm : ProtectedB b wid lid
            { st with bundleIdCache := fun x => if x = c then true else st.bundleIdCache x } := by
          refine ⟨?_, hK.cacheNone, fun c' hc' => hK.notQueued c' hc', hK.widLt, hK.lidLt,
            fun l op hop hb' => hK.opsCounter l op hop hb',
            fun op hop => hK.lidCounter op hop⟩
          show (if b = c then true else st.bundleIdCache b) = true
          by_cases hbc : b = c
          · rw [if_pos hbc]
          · rw [if_neg hbc]
            exact hK.idMarked
        exact dispatch_protected paths (some c) args b wid lid _ hKm
          (fun h => hcne (by injection h))
  | doneA c =>
    have hcb : c ≠ b := fun h => ha2 (by rw [h])
    exact publish_protected c [] b wid lid st hcb hK
  | publishA c ps =>
    have hcb : c ≠ b := fun h => ha1 ps (by rw [h])
    exact publish_protected c ps b wid lid st hcb hK
  | fileEvent l p r dp => exact loadFileEvent_protected l p r dp b wid lid st hb hK

lemma run_protected (acts : List Action) (b : String) (wid lid : Nat) (st : State)
    (hb : b ≠ "") (hK : ProtectedB b wid lid st)
    (hacts : ∀ a ∈ acts, (∀ ps, a ≠ .publishA b ps) ∧ a ≠ .doneA b) :
    ProtectedB b wid lid (run st acts) ∧
    callsOf (run st acts) wid = callsOf st wid ∧
    finishesOf (run st acts) lid = finishesOf st lid := by
  induction acts generalizing st with
  | nil => exact ⟨hK, rfl, rfl⟩
  | cons a rest ih =>
    obtain ⟨ha1, ha2⟩ := hacts a (List.mem_cons_self a rest)
    obtain ⟨g1, g2, g3⟩ := step_protected a b wid lid st hb hK ha1 ha2
    obtain ⟨g4, g5, g6⟩ := ih (step st a) g1
      (fun a' ha' => hacts a' (List.mem_cons_of_mem a ha'))
    refine ⟨g4, ?_, ?_⟩
    · rw [show run st (a :: rest) = run (step st a) rest from rfl, g5, g2]
    · rw [show run st (a :: rest) = run (step st a) rest from rfl, g6, g3]

/-- C10: a `load` call with an empty path list and a fresh bundle id
permanently marks the id as used (any retry raises the duplicate-id
error) yet dispatches nothing and logs no events; since the wait counter
starts at zero and is only tested after a decrement that never happens,
neither success nor fail is ever invoked and the bundle is never
published, so a subscriber to that id is never called back under any
sequence of later API calls and file-resolution events (other than a
manual `done`/publish of that very id, which the claim's "never
published" presupposes absent). -/
theorem empty_path_load (b : String) (args : Args) (st : State) (acts : List Action)
    (hb : b ≠ "")
    (hid : st.bundleIdCache b = false)
    (hcache : st.bundleResultCache b = none)
    (hops : ∀ l op, st.loads l = some op → op.bundleId ≠ some b)
    (hfreshw : ∀ c, st.nextWaiterId ∉ st.bundleCallbackQueue c)
    (hacts : ∀ a ∈ acts, (∀ ps, a ≠ .publishA b ps) ∧ a ≠ .doneA b) :
    loadjs [] (some b) args st = .ok (step st (.load [] (some b) args)) ∧
    (step st (.load [] (some b) args)).bundleIdCache b = true ∧
    (step st (.load [] (some b) args)).events = st.events ∧
    (∀ ps args', loadjs ps (some b) args' (step st (.load [] (some b) args)) =
      .error "LoadJS") ∧
    callsOf (run (subscribe [b] (step st (.load [] (some b) args))) acts)
        st.nextWaiterId = callsOf st st.nextWaiterId ∧
    finishesOf (run (subscribe [b] (step st (.load [] (some b) args))) acts)
        st.nextLoadId = finishesOf st st.nextLoadId ∧
    (run (subscribe [b] (step st (.load [] (some b) args))) acts).bundleResultCache b =
      none := by
  have hbool : ¬ st.bundleIdCache b = true := by
    rw [hid]
    exact Bool.false_ne_true
  have hstep : step st (.load [] (some b) args) =
      dispatchLoads [] (some b) args
        { st with bundleIdCache := fun x => if x = b then true else st.bundleIdCache x } := by
    show (match loadjs [] (some b) args st with
          | .ok st' => st' | .error _ => st) = _
    unfold loadjs
    simp only []
    rw [if_neg hbool]
  rw [hstep]
  have f1 : (dispatchLoads [] (some b) args
      { st with bundleIdCache := fun x => if x = b then true else st.bundleIdCache x
      }).bundleIdCache b = true := by
    rw [dispatchLoads_idCache]
    show (if b = b then true else st.bundleIdCache b) = true
    rw [if_pos rfl]
  have f2 : (dispatchLoads [] (some b) args
      { st with bundleIdCache := fun x => if x = b then true else st.bundleIdCache x
      }).bundleResultCache = st.bundleResultCache := by
    rw [dispatchLoads_eq]
  have f3 : (dispatchLoads [] (some b) args
      { st with bundleIdCache := fun x => if x = b then true else st.bundleIdCache x
      }).bundleCallbackQueue = st.bundleCallbackQueue := by
    rw [dispatchLoads_eq]
  have f4 : (dispatchLoads [] (some b) args
      { st with bundleIdCache := fun x => if x = b then true else st.bundleIdCache x
      }).events = st.events := by
    rw [dispatchLoads_eq]
    simp
  have f5 : (dispatchLoads [] (some b) args
      { st with bundleIdCache := fun x => if x = b then true else st.bundleIdCache x
      }).nextWaiterId = st.nextWaiterId := by
    rw [dispatchLoads_eq]
  have f6 : (dispatchLoads [] (some b) args
      { st with bundleIdCache := fun x => if x = b then true else st.bundleIdCache x
      }).nextLoadId = st.nextLoadId + 1 := by
    rw [dispatchLoads_eq]
  have f7 : ∀ i, (dispatchLoads [] (some b) args
      { st with bundleIdCache := fun x => if x = b then true else st.bundleIdCache x
      }).loads i =
      if i = st.nextLoadId then
        some ⟨some b, args.hasSuccess, args.hasFail, (([] : List String).length : Int), []⟩
      else st.loads i := by
    intro i
    rw [dispatchLoads_eq]
  have f8 : (dispatchLoads [] (some b) args
      { st with bundleIdCache := fun x => if x = b then true else st.bundleIdCache x
      }).waiters = st.waiters := by
    rw [dispatchLoads_eq]
  set stD := dispatchLoads [] (some b) args
    { st with bundleIdCache := fun x => if x = b then true else st.bundleIdCache x
    } with hD
  -- the subscription to b queues the fresh waiter without firing
  have hcacheD : ∀ s : State, s = { stD with
      waiters := fun i =>
        if i = stD.nextWaiterId then some ⟨[], (1 : Int)⟩ else stD.waiters i
      nextWaiterId := stD.nextWaiterId + 1 } → s.bundleResultCache b = none := by
    intro s hs
    rw [hs]
    show stD.bundleResultCache b = none
    rw [f2]
    exact hcache
  have hsubR : subscribe [b] stD =
      pushQueue { stD with
        waiters := fun i =>
          if i = stD.nextWaiterId then some ⟨[], (1 : Int)⟩ else stD.waiters i
        nextWaiterId := stD.nextWaiterId + 1 } b stD.nextWaiterId := by
    show subscribeLoop stD.nextWaiterId [b] _ = _
    rw [subscribeLoop, hcacheD _ rfl]
    rfl
  have hRqueue : ∀ c, (subscribe [b] stD).bundleCallbackQueue c =
      if c = b then st.bundleCallbackQueue b ++ [st.nextWaiterId]
      else st.bundleCallbackQueue c := by
    intro c
    rw [hsubR]
    unfold pushQueue
    rw [setQueue_queue]
    by_cases hc : c = b
    · subst hc
      rw [if_pos rfl, if_pos rfl]
      show stD.bundleCallbackQueue c ++ [stD.nextWaiterId] = _
      rw [f3, f5]
    · rw [if_neg hc, if_neg hc]
      show stD.bundleCallbackQueue c = _
      rw [f3]
  have hRevents : (subscribe [b] stD).events = st.events := by
    rw [hsubR]
    unfold pushQueue
    rw [setQueue_events]
    show stD.events = st.events
    exact f4
  have hK : ProtectedB b st.nextWaiterId st.nextLoadId (subscribe [b] stD) := by
    refine ⟨?_, ?_, ?_, ?_, ?_, ?_, ?_⟩
    · rw [hsubR]
      unfold pushQueue
      rw [setQueue_idCache]
      show stD.bundleIdCache b = true
      exact f1
    · rw [hsubR]
      unfold pushQueue
      rw [setQueue_cache]
      show stD.bundleResultCache b = none
      rw [f2]
      exact hcache
    · intro c hc
      rw [hRqueue c, if_neg hc]
      exact hfreshw c
    · rw [hsubR]
      unfold pushQueue
      rw [setQueue_nextWaiterId]
      show stD.nextWaiterId + 1 > st.nextWaiterId
      rw [f5]
      exact Nat.lt_succ_self _
    · rw [hsubR]
      unfold pushQueue
      rw [setQueue_nextLoadId]
      show st.nextLoadId < stD.nextLoadId
      rw [f6]
      exact Nat.lt_succ_self _
    · intro l op hop hb'
      have : (subscribe [b] stD).loads l = stD.loads l := by
        rw [hsubR]
        unfold pushQueue
        rw [setQueue_loads]
      rw [this, f7 l] at hop
      by_cases hl : l = st.nextLoadId
      · rw [if_pos hl] at hop
        obtain rfl : (⟨some b, args.hasSuccess, args.hasFail,
            (([] : List String).length : Int), []⟩ : LoadOp) = op := by injection hop
        simp
      · rw [if_neg hl] at hop
        exact absurd hb' (hops l op hop)
    · intro op hop
      have : (subscribe [b] stD).loads st.nextLoadId = stD.loads st.nextLoadId := by
        rw [hsubR]
        unfold pushQueue
        rw [setQueue_loads]
      rw [this, f7 st.nextLoadId, if_pos rfl] at hop
      obtain rfl : (⟨some b, args.hasSuccess, args.hasFail,
          (([] : List String).length : Int), []⟩ : LoadOp) = op := by injection hop
      simp
  obtain ⟨hKF, hcallsF, hfinsF⟩ :=
    run_protected acts b st.nextWaiterId st.nextLoadId (subscribe [b] stD) hb hK hacts
  have hcallsR : callsOf (subscribe [b] stD) st.nextWaiterId =
      callsOf st st.nextWaiterId := by
    rw [callsOf_eq, hRevents, ← callsOf_eq]
  have hfinsR : finishesOf (subscribe [b] stD) st.nextLoadId =
      finishesOf st st.nextLoadId := by
    rw [finishesOf_eq, hRevents, ← finishesOf_eq]
  refine ⟨?_, f1, f4, ?_, ?_, ?_, hKF.cacheNone⟩
  · show loadjs [] (some b) args st = _
    unfold loadjs
    simp only []
    rw [if_neg hbool]
  · intro ps args'
    unfold loadjs
    simp only []
    rw [if_pos f1]
  · rw [hcallsF, hcallsR]
  · rw [hfinsF, hfinsR]

/-- Witness for C10 at a concrete input: an empty load of `"b"` marks
the id, a retry errors, and after a `ready ["b"]` the subscriber's
callback never fires across a varied sequence of later actions; the
bundle is never published. -/
theorem empty_path_load_witness :
    loadjs [] (some "b") ⟨true, true⟩ initState =
      .ok (step initState (.load [] (some "b") ⟨true, true⟩)) ∧
    (step initState (.load [] (some "b") ⟨true, true⟩)).bundleIdCache "b" = true ∧
    loadjs ["x.js"] (some "b") ⟨false, false⟩
      (step initState (.load [] (some "b") ⟨true, true⟩)) = .error "LoadJS" ∧
    callsOf
        (run (subscribe ["b"] (step initState (.load [] (some "b") ⟨true, true⟩)))
          [.doneA "a", .publishA "c" ["q"], .ready ["b"],
           .load ["x.js"] (some "b2") ⟨true, true⟩,
           .fileEvent 1 "x.js" .error false])
        initState.nextWaiterId = callsOf initState initState.nextWaiterId ∧
    finishesOf
        (run (subscribe ["b"] (step initState (.load [] (some "b") ⟨true, true⟩)))
          [.doneA "a", .publishA "c" ["q"], .ready ["b"],
           .load ["x.js"] (some "b2") ⟨true, true⟩,
           .fileEvent 1 "x.js" .error false])
        initState.nextLoadId = finishesOf initState initState.nextLoadId ∧
    (run (subscribe ["b"] (step initState (.load [] (some "b") ⟨true, true⟩)))
        [.doneA "a", .publishA "c" ["q"], .ready ["b"],
         .load ["x.js"] (some "b2") ⟨true, true⟩,
         .fileEvent 1 "x.js" .error false]).bundleResultCache "b" = none := by
  have hacts : ∀ a ∈ ([.doneA "a", .publishA "c" ["q"], .ready ["b"],
      .load ["x.js"] (some "b2") ⟨true, true⟩,
      .fileEvent 1 "x.js" .error false] : List Action),
      (∀ ps, a ≠ .publishA "b" ps) ∧ a ≠ .doneA "b" := by
    intro a ha
    fin_cases ha <;>
      refine ⟨fun ps h => ?_, fun h => ?_⟩ <;>
        first
          | exact Action.noConfusion h
          | (injection h with h1 h2; exact absurd h1 (by decide))
          | (injection h with h1; exact absurd h1 (by decide))
  have h := empty_path_load "b" ⟨true, true⟩ initState
    [.doneA "a", .publishA "c" ["q"], .ready ["b"],
     .load ["x.js"] (some "b2") ⟨true, true⟩,
     .fileEvent 1 "x.js" .error false]
    (by decide) (by decide) rfl (fun l op hcontr => Option.noConfusion hcontr)
    (fun c => List.not_mem_nil _) hacts
  exact ⟨h.1, h.2.1, h.2.2.2.1 ["x.js"] ⟨false, false⟩, h.2.2.2.2.1,
    h.2.2.2.2.2.1, h.2.2.2.2.2.2⟩

end LoadJS
